import Mathlib

/-!
Verification of the EWSS embedded WebSocket server (single-header
`include/ewss.hpp`, with the sibling modular implementation in
`include/ewss/utils.hpp` / `src/connection.cpp` / `src/server.cpp`).

The development shallowly embeds the data structures and operations of the
C++ sources as executable Lean functions:

* `RingBuffer` embeds the fixed-capacity circular byte buffer
  (`ewss.hpp` lines 796-900; the copy in `ewss/connection.hpp` is
  behaviourally identical).  Machine `size_t` values never overflow here
  (all counts are bounded by the capacity), so they are modelled as `Nat`.
* the frame codec (`ws::parse_frame_header`, `ws::encode_frame_header`)
  is embedded twice, once per C++ implementation: the `ewss.hpp` variant
  routes every byte through `uint8_t`, while the `ewss/utils.hpp` variant
  reads bytes out of a `std::string_view` as plain `char`; we model the
  common Linux/x86 configuration where `char` is signed.
* SHA-1 and Base64 are embedded for both implementations; 32-bit words
  are `Nat` reduced modulo `2 ^ 32` at every arithmetic step.
* `Conn` embeds the connection object: protocol state tag, RX/TX rings,
  socket-open flag, last error, write-paused flag, and the trace of user
  callback invocations (the C++ fires callbacks through `std::function`
  slots; we record each invocation as an event, assuming the slots are
  populated).
* `ServerM` embeds the admission-control state of `Server`.
Time-valued fields (timestamps, timeouts, poll latencies) are outside the
embedded fragment, as no claim below depends on wall-clock values.
-/

namespace EWSS

/-! Ring buffer (`RingBuffer<T, Size>` with `T = uint8_t`)

The byte array is modelled as a total function `Nat → Nat`; only indices
below `cap` are ever read.  `read_idx_`, `write_idx_` and `count_` are the
three `size_t` fields of the C++ class. -/

structure RingBuffer where
  cap : Nat
  buf : Nat → Nat
  readIdx : Nat
  writeIdx : Nat
  count : Nat

namespace RingBuffer

/-- Fresh ring buffer of capacity `cap` (the C++ default constructor
zero-initialises the array and the indices). -/
def init (cap : Nat) : RingBuffer :=
  { cap := cap, buf := fun _ => 0, readIdx := 0, writeIdx := 0, count := 0 }

/-- `available() { return kCapacity - count_; }` -/
def available (rb : RingBuffer) : Nat := rb.cap - rb.count

/-- `size() { return count_; }` -/
def size (rb : RingBuffer) : Nat := rb.count

/-- `empty() { return count_ == 0; }` -/
def isEmpty (rb : RingBuffer) : Bool := rb.count = 0

/-- The copy loop inside `push`: `buffer_[write_idx_] = data[i];
write_idx_ = (write_idx_ + 1) % kCapacity;` repeated over `data`. -/
def writeLoop (cap : Nat) : List Nat → (Nat → Nat) → Nat → ((Nat → Nat) × Nat)
  | [], buf, widx => (buf, widx)
  | b :: rest, buf, widx =>
      writeLoop cap rest (fun j => if j = widx then b else buf j) ((widx + 1) % cap)

/-- `push(data, len)`: rejects when `available() < len`, otherwise copies
and bumps `count_`.  Returns the C++ `bool` next to the updated buffer. -/
def push (rb : RingBuffer) (data : List Nat) : Bool × RingBuffer :=
  if rb.available < data.length then (false, rb)
  else
    (true, { rb with buf := (writeLoop rb.cap data rb.buf rb.writeIdx).1,
                     writeIdx := (writeLoop rb.cap data rb.buf rb.writeIdx).2,
                     count := rb.count + data.length })

/-- The copy loop inside `peek`, reading `n` bytes from `idx` with
wrap-around. -/
def peekFrom (buf : Nat → Nat) (cap : Nat) : Nat → Nat → List Nat
  | _, 0 => []
  | idx, n + 1 => buf idx :: peekFrom buf cap ((idx + 1) % cap) n

/-- `peek(data, max_len)`: copies `min(max_len, count_)` bytes starting at
`read_idx_` without consuming them. -/
def peek (rb : RingBuffer) (maxLen : Nat) : List Nat :=
  peekFrom rb.buf rb.cap rb.readIdx (min maxLen rb.count)

/-- `advance(len)`: clamps `len` to `count_`, then moves `read_idx_`. -/
def advance (rb : RingBuffer) (len : Nat) : RingBuffer :=
  let l := min len rb.count
  { rb with readIdx := (rb.readIdx + l) % rb.cap, count := rb.count - l }

/-- `commit_write(len)`: clamps `len` to `available()`, then moves
`write_idx_`.  (The bytes themselves were placed by the kernel through the
iovec views; the model tracks the index/count effect.) -/
def commitWrite (rb : RingBuffer) (len : Nat) : RingBuffer :=
  let l := min len rb.available
  { rb with writeIdx := (rb.writeIdx + l) % rb.cap, count := rb.count + l }

/-- `clear()`: zeroes the indices but not the bytes. -/
def clear (rb : RingBuffer) : RingBuffer :=
  { rb with readIdx := 0, writeIdx := 0, count := 0 }

/-- The readable content of the buffer, in FIFO order. -/
def contents (rb : RingBuffer) : List Nat :=
  peekFrom rb.buf rb.cap rb.readIdx rb.count

/-- Well-formedness: the invariant of the C++ class.  `count_` never
exceeds the capacity, both indices are reduced modulo the capacity, and
the write index sits `count_` bytes after the read index. -/
def WF (rb : RingBuffer) : Prop :=
  rb.count ≤ rb.cap ∧ rb.readIdx < rb.cap ∧ rb.writeIdx < rb.cap ∧
    rb.writeIdx = (rb.readIdx + rb.count) % rb.cap

theorem modShift (cap a b : Nat) : ((a + 1) % cap + b) % cap = (a + (b + 1)) % cap := by
  rw [Nat.mod_add_mod]; congr 1; omega

theorem writeLoop_widx (cap : Nat) (hc : 0 < cap) :
    ∀ (data : List Nat) (buf : Nat → Nat) (widx : Nat), widx < cap →
      (writeLoop cap data buf widx).2 = (widx + data.length) % cap := by
  intro data
  induction data with
  | nil =>
      intro buf widx hw
      simp [writeLoop, Nat.mod_eq_of_lt hw]
  | cons b rest ih =>
      intro buf widx hw
      have h1 : (widx + 1) % cap < cap := Nat.mod_lt _ hc
      rw [writeLoop, ih _ _ h1, Nat.mod_add_mod]
      congr 1
      simp [List.length_cons]
      omega

theorem addMod_inj (cap : Nat) (_hc : 0 < cap) (r i k : Nat)
    (hi : i < cap) (hk : k < cap) (h : (r + i) % cap = (r + k) % cap) : i = k := by
  have hmod : Nat.ModEq cap (r + i) (r + k) := h
  have := Nat.ModEq.add_left_cancel' r hmod
  have hik : i % cap = k % cap := this
  rwa [Nat.mod_eq_of_lt hi, Nat.mod_eq_of_lt hk] at hik

theorem writeLoop_buf_miss (cap : Nat) (hc : 0 < cap) :
    ∀ (data : List Nat) (buf : Nat → Nat) (widx : Nat), widx < cap →
      ∀ j, (∀ i, i < data.length → j ≠ (widx + i) % cap) →
        (writeLoop cap data buf widx).1 j = buf j := by
  intro data
  induction data with
  | nil => intro buf widx _ j _; rfl
  | cons b rest ih =>
      intro buf widx hw j hj
      have h1 : (widx + 1) % cap < cap := Nat.mod_lt _ hc
      rw [writeLoop, ih _ _ h1 j ?_]
      · have hne : j ≠ widx := by
          have := hj 0 (by simp)
          simpa [Nat.mod_eq_of_lt hw] using this
        simp [hne]
      · intro i hilt
        have := hj (i + 1) (by simpa using Nat.succ_lt_succ hilt)
        rw [modShift]
        exact this

theorem writeLoop_buf_hit (cap : Nat) (hc : 0 < cap) :
    ∀ (data : List Nat) (buf : Nat → Nat) (widx : Nat), widx < cap →
      data.length ≤ cap →
      ∀ i, i < data.length →
        (writeLoop cap data buf widx).1 ((widx + i) % cap) = data.getD i 0 := by
  intro data
  induction data with
  | nil => intro _ _ _ _ i h; exact absurd h (by simp)
  | cons b rest ih =>
      intro buf widx hw hlen i hi
      have h1 : (widx + 1) % cap < cap := Nat.mod_lt _ hc
      match i with
      | 0 =>
          rw [Nat.add_zero, Nat.mod_eq_of_lt hw, writeLoop]
          rw [writeLoop_buf_miss cap hc rest _ _ h1 widx ?_]
          · simp
          · intro k hk hkeq
            have hpos : widx = (widx + (k + 1)) % cap := by
              rwa [Nat.mod_add_mod, Nat.add_assoc, Nat.add_comm 1 k] at hkeq
            have h0 : (widx + 0) % cap = (widx + (k + 1)) % cap := by
              rw [Nat.add_zero, Nat.mod_eq_of_lt hw]; exact hpos
            have : (0 : Nat) = k + 1 := by
              refine addMod_inj cap hc widx 0 (k + 1) hc ?_ h0
              simp only [List.length_cons] at hlen
              omega
            omega
      | Nat.succ i' =>
          have hstep : (widx + (i' + 1)) % cap = ((widx + 1) % cap + i') % cap := by
            rw [Nat.mod_add_mod, Nat.add_assoc, Nat.add_comm 1 i']
          rw [writeLoop, hstep]
          have := ih (fun j => if j = widx then b else buf j) _ h1
            (by simp only [List.length_cons] at hlen; omega) i' (by simpa using hi)
          simpa using this

theorem peekFrom_length (buf : Nat → Nat) (cap : Nat) :
    ∀ (n idx : Nat), (peekFrom buf cap idx n).length = n := by
  intro n
  induction n with
  | zero => intro idx; rfl
  | succ n ih => intro idx; simp [peekFrom, ih]

theorem peekFrom_congr (cap : Nat) (hc : 0 < cap) (buf1 buf2 : Nat → Nat) :
    ∀ (n idx : Nat), idx < cap →
      (∀ i, i < n → buf1 ((idx + i) % cap) = buf2 ((idx + i) % cap)) →
      peekFrom buf1 cap idx n = peekFrom buf2 cap idx n := by
  intro n
  induction n with
  | zero => intro idx _ _; rfl
  | succ n ih =>
      intro idx hidx h
      have h0 : buf1 idx = buf2 idx := by
        have := h 0 (Nat.succ_pos n)
        simpa [Nat.mod_eq_of_lt hidx] using this
      have hrec := ih ((idx + 1) % cap) (Nat.mod_lt _ hc) ?_
      · simp [peekFrom, h0, hrec]
      · intro i hi
        have := h (i + 1) (Nat.succ_lt_succ hi)
        rw [modShift]
        exact this

theorem peekFrom_split (cap : Nat) (hc : 0 < cap) (buf : Nat → Nat) :
    ∀ (m k idx : Nat), idx < cap →
      peekFrom buf cap idx (m + k) =
        peekFrom buf cap idx m ++ peekFrom buf cap ((idx + m) % cap) k := by
  intro m
  induction m with
  | zero =>
      intro k idx hidx
      simp [peekFrom, Nat.mod_eq_of_lt hidx]
  | succ m ih =>
      intro k idx hidx
      have hshift : ((idx + 1) % cap + m) % cap = (idx + (m + 1)) % cap :=
        modShift cap idx m
      have : m + 1 + k = (m + k) + 1 := by omega
      rw [this]
      show buf idx :: peekFrom buf cap ((idx + 1) % cap) (m + k) = _
      rw [ih k ((idx + 1) % cap) (Nat.mod_lt _ hc), hshift]
      rfl

theorem peekFrom_of_pointwise (cap : Nat) (hc : 0 < cap) (buf : Nat → Nat) :
    ∀ (data : List Nat) (idx : Nat), idx < cap →
      (∀ j, j < data.length → buf ((idx + j) % cap) = data.getD j 0) →
      peekFrom buf cap idx data.length = data := by
  intro data
  induction data with
  | nil => intro idx _ _; rfl
  | cons b rest ih =>
      intro idx hidx h
      have h0 : buf idx = b := by
        have := h 0 (Nat.succ_pos _)
        simpa [Nat.mod_eq_of_lt hidx] using this
      have hrec := ih ((idx + 1) % cap) (Nat.mod_lt _ hc) ?_
      · simp [peekFrom, h0, hrec]
      · intro j hj
        have := h (j + 1) (Nat.succ_lt_succ hj)
        rw [modShift]
        simpa using this

/-- A successful `push` appends the pushed bytes behind the existing
content. -/
theorem push_contents (rb : RingBuffer) (data : List Nat)
    (hwf : WF rb) (hfit : data.length ≤ rb.available) (hc : 0 < rb.cap) :
    contents (rb.push data).2 = contents rb ++ data ∧ (rb.push data).1 = true := by
  obtain ⟨hcnt, hr, hw, hrel⟩ := hwf
  have hnot : ¬ rb.available < data.length := Nat.not_lt.mpr hfit
  have htot : rb.count + data.length ≤ rb.cap := by
    unfold available at hfit; omega
  have hpush : rb.push data =
      (true, { rb with buf := (writeLoop rb.cap data rb.buf rb.writeIdx).1,
                       writeIdx := (writeLoop rb.cap data rb.buf rb.writeIdx).2,
                       count := rb.count + data.length }) := by
    unfold push
    rw [if_neg hnot]
  rw [hpush]
  refine ⟨?_, rfl⟩
  show peekFrom (writeLoop rb.cap data rb.buf rb.writeIdx).1 rb.cap rb.readIdx
      (rb.count + data.length) = contents rb ++ data
  rw [peekFrom_split rb.cap hc _ rb.count data.length rb.readIdx hr]
  congr 1
  · refine peekFrom_congr rb.cap hc _ _ rb.count rb.readIdx hr ?_
    intro i hi
    refine writeLoop_buf_miss rb.cap hc data rb.buf rb.writeIdx hw _ ?_
    intro k hk hcontra
    rw [hrel, Nat.mod_add_mod, Nat.add_assoc] at hcontra
    have : i = rb.count + k :=
      addMod_inj rb.cap hc rb.readIdx i (rb.count + k) (by omega) (by omega) hcontra
    omega
  · have hlen2 : data.length ≤ rb.cap := by omega
    have hstart : ((rb.readIdx + rb.count) % rb.cap) < rb.cap := Nat.mod_lt _ hc
    refine peekFrom_of_pointwise rb.cap hc _ data _ hstart ?_
    intro j hj
    have hidx : ((rb.readIdx + rb.count) % rb.cap + j) % rb.cap =
        (rb.writeIdx + j) % rb.cap := by
      rw [hrel, Nat.mod_add_mod]
    rw [hidx]
    exact writeLoop_buf_hit rb.cap hc data rb.buf rb.writeIdx hw hlen2 j hj

/-- `advance` drops bytes from the front of the content. -/
theorem advance_contents (rb : RingBuffer) (n : Nat)
    (hwf : WF rb) (hc : 0 < rb.cap) :
    contents (rb.advance n) = (contents rb).drop n := by
  obtain ⟨hcnt, hr, hw, hrel⟩ := hwf
  have hadv : contents (rb.advance n) =
      peekFrom rb.buf rb.cap ((rb.readIdx + min n rb.count) % rb.cap)
        (rb.count - min n rb.count) := rfl
  have hsplit : peekFrom rb.buf rb.cap rb.readIdx rb.count =
      peekFrom rb.buf rb.cap rb.readIdx (min n rb.count) ++
        peekFrom rb.buf rb.cap ((rb.readIdx + min n rb.count) % rb.cap)
          (rb.count - min n rb.count) := by
    have h2 := peekFrom_split rb.cap hc rb.buf (min n rb.count)
      (rb.count - min n rb.count) rb.readIdx hr
    rw [← h2]
    congr 1
    omega
  rcases Nat.le_total n rb.count with hle | hge
  · have hfl : (peekFrom rb.buf rb.cap rb.readIdx (min n rb.count)).length = n := by
      rw [peekFrom_length]; omega
    rw [hadv]
    show _ = (peekFrom rb.buf rb.cap rb.readIdx rb.count).drop n
    rw [hsplit, List.drop_left' hfl]
  · have h0 : rb.count - min n rb.count = 0 := by omega
    rw [hadv, h0]
    have hnil : peekFrom rb.buf rb.cap ((rb.readIdx + min n rb.count) % rb.cap) 0 =
        ([] : List Nat) := rfl
    rw [hnil]
    have hlen : (contents rb).length = rb.count := peekFrom_length _ _ _ _
    exact (List.drop_eq_nil_of_le (by omega)).symm

/-- `WF` is preserved by every ring-buffer operation. -/
theorem wf_push (rb : RingBuffer) (data : List Nat) (hwf : WF rb) (hc : 0 < rb.cap) :
    WF (rb.push data).2 := by
  obtain ⟨hcnt, hr, hw, hrel⟩ := hwf
  unfold push
  by_cases hcase : rb.available < data.length
  · simp only [hcase, if_pos]
    exact ⟨hcnt, hr, hw, hrel⟩
  · simp only [hcase, if_neg, not_false_iff]
    have hfit : data.length ≤ rb.available := Nat.not_lt.mp hcase
    have htot : rb.count + data.length ≤ rb.cap := by
      unfold available at hfit; omega
    refine ⟨htot, hr, ?_, ?_⟩
    · rw [writeLoop_widx rb.cap hc data rb.buf rb.writeIdx hw]
      exact Nat.mod_lt _ hc
    · rw [writeLoop_widx rb.cap hc data rb.buf rb.writeIdx hw, hrel,
        Nat.mod_add_mod, Nat.add_assoc]

theorem wf_advance (rb : RingBuffer) (n : Nat) (hwf : WF rb) (hc : 0 < rb.cap) :
    WF (rb.advance n) := by
  obtain ⟨hcnt, hr, hw, hrel⟩ := hwf
  refine ⟨?_, Nat.mod_lt _ hc, hw, ?_⟩
  · show rb.count - min n rb.count ≤ rb.cap
    omega
  show rb.writeIdx = ((rb.readIdx + min n rb.count) % rb.cap +
    (rb.count - min n rb.count)) % rb.cap
  rw [Nat.mod_add_mod, hrel]
  congr 1
  omega

theorem wf_commitWrite (rb : RingBuffer) (n : Nat) (hwf : WF rb) (hc : 0 < rb.cap) :
    WF (rb.commitWrite n) := by
  obtain ⟨hcnt, hr, hw, hrel⟩ := hwf
  have hcl : min n rb.available ≤ rb.cap - rb.count := by
    unfold available; omega
  refine ⟨?_, hr, ?_, ?_⟩
  · show rb.count + min n rb.available ≤ rb.cap
    omega
  · show (rb.writeIdx + min n rb.available) % rb.cap < rb.cap
    exact Nat.mod_lt _ hc
  · show (rb.writeIdx + min n rb.available) % rb.cap =
      (rb.readIdx + (rb.count + min n rb.available)) % rb.cap
    rw [hrel, Nat.mod_add_mod, Nat.add_assoc]

theorem wf_clear (rb : RingBuffer) (hc : 0 < rb.cap) : WF (rb.clear) := by
  refine ⟨Nat.zero_le _, hc, hc, ?_⟩
  show (0 : Nat) = (0 + 0) % rb.cap
  simp

/-! Operation sequences over a ring buffer -/

/-- One user-visible ring-buffer operation. -/
inductive BufOp where
  | push (data : List Nat)
  | advance (n : Nat)
  | commitWrite (n : Nat)
  | clear

/-- Apply a single operation (a `push` that does not fit leaves the buffer
unchanged, exactly as the C++ `push` returning `false`). -/
def applyOp (rb : RingBuffer) : BufOp → RingBuffer
  | .push data => (rb.push data).2
  | .advance n => rb.advance n
  | .commitWrite n => rb.commitWrite n
  | .clear => rb.clear

/-- Run a sequence of operations left to right. -/
def runOps (rb : RingBuffer) : List BufOp → RingBuffer
  | [] => rb
  | op :: rest => runOps (applyOp rb op) rest

/-- A sequence of pushes and advances respects capacity: every push fits
into the space available when it executes, and no other operation kinds
occur. -/
def pushAdvanceFits (rb : RingBuffer) : List BufOp → Bool
  | [] => true
  | (BufOp.push data) :: rest =>
      decide (data.length ≤ rb.available) && pushAdvanceFits (rb.push data).2 rest
  | (BufOp.advance n) :: rest => pushAdvanceFits (rb.advance n) rest
  | (BufOp.commitWrite _) :: _ => false
  | BufOp.clear :: _ => false

/-- Abstract FIFO queue semantics, following the specification text: a
push appends the bytes, an advance drops from the front. -/
def absOp (q : List Nat) : BufOp → List Nat
  | .push data => q ++ data
  | .advance n => q.drop n
  | .commitWrite _ => q
  | .clear => q

/-- Run the abstract queue semantics. -/
def absRun (q : List Nat) : List BufOp → List Nat
  | [] => q
  | op :: rest => absRun (absOp q op) rest

theorem applyOp_cap (rb : RingBuffer) (op : BufOp) : (applyOp rb op).cap = rb.cap := by
  cases op with
  | push data =>
      show ((rb.push data).2).cap = rb.cap
      unfold push
      by_cases h : rb.available < data.length <;> simp [h]
  | advance n => rfl
  | commitWrite n => rfl
  | clear => rfl

theorem runOps_cap (rb : RingBuffer) (ops : List BufOp) : (runOps rb ops).cap = rb.cap := by
  induction ops generalizing rb with
  | nil => rfl
  | cons op rest ih => rw [runOps, ih, applyOp_cap]

theorem wf_applyOp (rb : RingBuffer) (op : BufOp) (hwf : WF rb) (hc : 0 < rb.cap) :
    WF (applyOp rb op) := by
  cases op with
  | push data => exact wf_push rb data hwf hc
  | advance n => exact wf_advance rb n hwf hc
  | commitWrite n => exact wf_commitWrite rb n hwf hc
  | clear => exact wf_clear rb hc

theorem wf_runOps (rb : RingBuffer) (ops : List BufOp) (hwf : WF rb) (hc : 0 < rb.cap) :
    WF (runOps rb ops) := by
  induction ops generalizing rb with
  | nil => exact hwf
  | cons op rest ih =>
      rw [runOps]
      have hcap := applyOp_cap rb op
      exact ih _ (wf_applyOp rb op hwf hc) (hcap ▸ hc)

theorem wf_init (cap : Nat) (hc : 0 < cap) : WF (init cap) :=
  ⟨Nat.zero_le _, hc, hc, by simp [init]⟩

/-- The FIFO refinement: a fitting sequence of pushes and advances takes
the concrete content to the abstract queue. -/
theorem contents_runOps (ops : List BufOp) :
    ∀ (rb : RingBuffer), WF rb → 0 < rb.cap → pushAdvanceFits rb ops = true →
      contents (runOps rb ops) = absRun (contents rb) ops := by
  induction ops with
  | nil => intro rb _ _ _; rfl
  | cons op rest ih =>
      intro rb hwf hc hfits
      cases op with
      | push data =>
          rw [pushAdvanceFits, Bool.and_eq_true, decide_eq_true_eq] at hfits
          obtain ⟨hfit, hrest⟩ := hfits
          rw [runOps, absRun]
          have hcap := applyOp_cap rb (BufOp.push data)
          have := ih (rb.push data).2 (wf_push rb data hwf hc) (by
            show 0 < ((rb.push data).2).cap
            have : ((rb.push data).2).cap = rb.cap := hcap
            omega) hrest
          rw [show applyOp rb (BufOp.push data) = (rb.push data).2 from rfl, this,
            (push_contents rb data hwf hfit hc).1]
          rfl
      | advance n =>
          rw [pushAdvanceFits] at hfits
          rw [runOps, absRun]
          have := ih (rb.advance n) (wf_advance rb n hwf hc) hc hfits
          rw [show applyOp rb (BufOp.advance n) = rb.advance n from rfl, this,
            advance_contents rb n hwf hc]
          rfl
      | commitWrite n => exact absurd hfits (by rw [pushAdvanceFits]; simp)
      | clear => exact absurd hfits (by rw [pushAdvanceFits]; simp)

/-- `peek` of the full size returns exactly the content. -/
theorem peek_size_eq_contents (rb : RingBuffer) : rb.peek rb.size = contents rb := by
  unfold peek contents size
  rw [Nat.min_self]

end RingBuffer

/-! Arithmetic view of shift-or byte assembly -/

theorem shiftLeft_lor_eq (a b k : Nat) (hb : b < 2 ^ k) :
    (a <<< k) ||| b = a * 2 ^ k + b := by
  apply Nat.eq_of_testBit_eq
  intro i
  rw [Nat.testBit_lor, Nat.testBit_shiftLeft]
  rw [show a * 2 ^ k + b = 2 ^ k * a + b by ring]
  rw [Nat.testBit_mul_pow_two_add a hb i]
  by_cases h : i < k
  · have : ¬ i ≥ k := by omega
    simp [h, this]
  · have hge : i ≥ k := by omega
    have hbit : b.testBit i = false :=
      Nat.testBit_lt_two_pow (lt_of_lt_of_le hb (Nat.pow_le_pow_right (by norm_num) hge))
    simp [h, hge, hbit]

theorem and_127_eq_mod (b : Nat) : b &&& 127 = b % 128 := by
  have h : b &&& 2 ^ 7 - 1 = b % 2 ^ 7 := Nat.and_pow_two_sub_one_eq_mod b 7
  norm_num at h
  exact h

theorem and_128_eq_zero_iff (b : Nat) (hb : b < 256) : b &&& 128 = 0 ↔ b < 128 := by
  have h128 : (128 : Nat) = 2 ^ 7 := by norm_num
  rw [h128, Nat.and_two_pow]
  rcases Nat.lt_or_ge b 128 with h | h
  · have : b.testBit 7 = false := Nat.testBit_lt_two_pow (by norm_num; omega)
    simp [this, h]
  · have hbit : b.testBit 7 = true := by
      rw [Nat.testBit_to_div_mod]
      have hdiv : b / 2 ^ 7 = 1 := by
        have h2 : (2 : Nat) ^ 7 = 128 := by norm_num
        rw [h2]
        omega
      rw [hdiv]
      decide
    simp [hbit]
    omega

/-! WebSocket frame codec

`ws::FrameHeader` and the two `ws::parse_frame_header` implementations.
The `ewss.hpp` implementation (lines 644-669) reads every multi-byte
quantity through explicit `uint8_t` casts; the `ewss/utils.hpp`
implementation (lines 226-263) reads extended-length bytes as plain
`char`, which is signed on the x86 Linux configuration modelled here, so
those bytes are sign-extended before being assembled. -/

/-- Byte access `data[i]` on a byte slice (out-of-range reads never
happen on executed paths; they default to 0). -/
def byteAt (data : List Nat) (i : Nat) : Nat := data.getD i 0

structure FrameHeader where
  fin : Bool
  opcode : Nat
  masked : Bool
  payloadLen : Nat
  deriving DecidableEq

/-- Shared tail of both parsers: `if (header.masked) { if (data.size() <
header_size + 4) return 0; header_size += 4; } return header_size;`.
A zero first component is the Incomplete result. -/
def maskFinish (dataLen : Nat) (hs : Nat) (h : FrameHeader) : Nat × FrameHeader :=
  if h.masked then (if dataLen < hs + 4 then (0, h) else (hs + 4, h))
  else (hs, h)

/-- Big-endian accumulation loop of the `ewss.hpp` parser:
`len = (len << 8) | byte` over the given bytes. -/
def beFold (bytes : List Nat) : Nat :=
  bytes.foldl (fun acc b => (acc <<< 8) ||| b) 0

/-- `ws::parse_frame_header` from `ewss.hpp` (lines 644-669).  Bytes are
the `uint8_t` values 0..255; this implementation masks byte 0 and byte 1
with `& 0x80 / & 0x0F / & 0x7F` and casts length bytes through `uint8_t`,
so `char` signedness is immaterial to it.  On the Incomplete paths the
C++ leaves the by-reference header partially assigned; the model returns
the fields assigned so far (callers never read them when the returned
size is 0). -/
def parseFrameHeaderHdr (data : List Nat) : Nat × FrameHeader :=
  if data.length < 2 then (0, ⟨false, 0, false, 0⟩)
  else
    let b0 := byteAt data 0
    let b1 := byteAt data 1
    let fin := (b0 &&& 128) != 0
    let opcode := b0 &&& 15
    let masked := (b1 &&& 128) != 0
    let len0 := b1 &&& 127
    if len0 = 126 then
      if data.length < 4 then (0, ⟨fin, opcode, masked, len0⟩)
      else
        let len := ((byteAt data 2) <<< 8) ||| (byteAt data 3)
        maskFinish data.length 4 ⟨fin, opcode, masked, len⟩
    else if len0 = 127 then
      if data.length < 10 then (0, ⟨fin, opcode, masked, len0⟩)
      else
        let len := beFold ((data.drop 2).take 8)
        maskFinish data.length 10 ⟨fin, opcode, masked, len⟩
    else
      maskFinish data.length 2 ⟨fin, opcode, masked, len0⟩

/-- Value of a `char` holding the byte `b`, under the signed-`char`
configuration (x86 Linux default). -/
def charSign (b : Nat) : Int := if b < 128 then (b : Int) else (b : Int) - 256

/-- Two's-complement 32-bit pattern of an `int` value. -/
def toN32 (x : Int) : Nat := (x % (4294967296 : Int)).toNat

/-- Signed value of a 32-bit pattern (`int` with the given bits). -/
def asI32 (n : Nat) : Int :=
  if n % 4294967296 < 2147483648 then ((n % 4294967296 : Nat) : Int)
  else ((n % 4294967296 : Nat) : Int) - 4294967296

/-- Conversion of an `int` value to `uint64_t` (reduction modulo `2^64`,
which sign-extends negative values). -/
def toN64 (x : Int) : Nat := (x % (18446744073709551616 : Int)).toNat

/-- `ws::parse_frame_header` from `ewss/utils.hpp` (lines 226-263).  Here
`data[2] ... data[9]` are read as plain `char` (signed in this model) and
only then widened: `static_cast<uint16_t>(data[2]) << 8 | data[3]` and
`static_cast<uint64_t>(data[i]) << k`, so bytes `≥ 0x80` sign-extend. -/
def parseFrameHeaderUtils (data : List Nat) : Nat × FrameHeader :=
  if data.length < 2 then (0, ⟨false, 0, false, 0⟩)
  else
    let b0 := byteAt data 0
    let b1 := byteAt data 1
    let fin := (b0 &&& 128) != 0
    let opcode := b0 &&& 15
    let masked := (b1 &&& 128) != 0
    let len0 := b1 &&& 127
    if len0 = 126 then
      if data.length < 4 then (0, ⟨fin, opcode, masked, len0⟩)
      else
        let u16 := ((charSign (byteAt data 2)) % 65536).toNat
        let len := toN64 (asI32 ((toN32 (Int.ofNat (u16 <<< 8))) |||
          (toN32 (charSign (byteAt data 3)))))
        maskFinish data.length 4 ⟨fin, opcode, masked, len⟩
    else if len0 = 127 then
      if data.length < 10 then (0, ⟨fin, opcode, masked, len0⟩)
      else
        let t (i : Nat) (sh : Nat) : Nat := ((toN64 (charSign (data.getD i 0))) <<< sh) % 18446744073709551616
        let len := t 2 56 ||| t 3 48 ||| t 4 40 ||| t 5 32 ||| t 6 24 ||| t 7 16 |||
          t 8 8 ||| toN64 (charSign (byteAt data 9))
        maskFinish data.length 10 ⟨fin, opcode, masked, len⟩
    else
      maskFinish data.length 2 ⟨fin, opcode, masked, len0⟩

/-- `ws::encode_frame_header` from `ewss.hpp` (lines 690-705), returning
the emitted header bytes. -/
def encodeFrameHeader (opcode : Nat) (payloadLen : Nat) (mask : Bool) : List Nat :=
  let b0 := 128 ||| opcode
  let mbit := if mask then 128 else 0
  if payloadLen < 126 then [b0, mbit ||| payloadLen]
  else if payloadLen < 65536 then
    [b0, mbit ||| 126, (payloadLen >>> 8) &&& 255, payloadLen &&& 255]
  else
    b0 :: (mbit ||| 127) ::
      (List.range 8).map (fun i => (payloadLen >>> ((7 - i) * 8)) &&& 255)

/-- The header-length rules as the specification states them (section
4.2): Incomplete (`none`) versus a header length and a payload length.
This is the spec-side comparator for the source-side parsers above. -/
def parseFrameHeaderSpec (data : List Nat) : Option (Nat × Nat) :=
  if data.length < 2 then none
  else
    let b1 := byteAt data 1
    let short := b1 % 128
    let masked := 128 ≤ b1
    let base : Option (Nat × Nat) :=
      if short ≤ 125 then some (2, short)
      else if short = 126 then
        if data.length < 4 then none
        else some (4, 256 * byteAt data 2 + byteAt data 3)
      else
        if data.length < 10 then none
        else some (10, ((data.drop 2).take 8).foldl (fun acc b => 256 * acc + b) 0)
    match base with
    | none => none
    | some (hl, pl) =>
        if masked then (if data.length < hl + 4 then none else some (hl + 4, pl))
        else some (hl, pl)

theorem bytesLt (data : List Nat) (hB : ∀ b ∈ data, b < 256) (i : Nat) :
    byteAt data i < 256 := by
  unfold byteAt
  rcases Nat.lt_or_ge i data.length with h | h
  · rw [List.getD_eq_getElem data 0 h]
    exact hB _ (List.getElem_mem h)
  · rw [List.getD_eq_default data 0 (by omega)]
    norm_num

theorem beFold_eq (bytes : List Nat) (hB : ∀ b ∈ bytes, b < 256) :
    beFold bytes = bytes.foldl (fun acc b => 256 * acc + b) 0 := by
  unfold beFold
  generalize 0 = acc
  induction bytes generalizing acc with
  | nil => rfl
  | cons b rest ih =>
      have hb : b < 256 := hB b (List.mem_cons_self _ _)
      have hstep : (acc <<< 8) ||| b = 256 * acc + b := by
        rw [shiftLeft_lor_eq acc b 8 (by norm_num; omega)]
        ring
      simp only [List.foldl_cons, hstep]
      exact ih (fun x hx => hB x (List.mem_cons_of_mem _ hx)) _

/-- The `ewss.hpp` parser agrees with the specification rules on every
byte slice: Incomplete exactly when the spec says Incomplete, and the
same header and payload lengths otherwise (the returned header length
including the 4 mask-key bytes when the mask bit is set). -/
theorem parseHdr_matches_spec (data : List Nat) (hB : ∀ b ∈ data, b < 256) :
    (parseFrameHeaderSpec data = none → (parseFrameHeaderHdr data).1 = 0) ∧
    (∀ hl pl, parseFrameHeaderSpec data = some (hl, pl) →
      (parseFrameHeaderHdr data).1 = hl ∧
        (parseFrameHeaderHdr data).2.payloadLen = pl) := by
  by_cases hlen : data.length < 2
  · constructor
    · intro _
      simp [parseFrameHeaderHdr, hlen]
    · intro hl pl hspec
      exfalso
      simp [parseFrameHeaderSpec, hlen] at hspec
  · have hb1 : byteAt data 1 < 256 := bytesLt data hB 1
    have hb2 : byteAt data 2 < 256 := bytesLt data hB 2
    have hb3 : byteAt data 3 < 256 := bytesLt data hB 3
    have hshort : byteAt data 1 &&& 127 = byteAt data 1 % 128 := and_127_eq_mod _
    have hlen16 : (byteAt data 2 <<< 8) ||| byteAt data 3 =
        256 * byteAt data 2 + byteAt data 3 := by
      rw [shiftLeft_lor_eq _ _ 8 (by norm_num; omega)]
      ring
    have hbe : beFold ((data.drop 2).take 8) =
        ((data.drop 2).take 8).foldl (fun acc b => 256 * acc + b) 0 := by
      refine beFold_eq _ ?_
      intro x hx
      exact hB x (List.mem_of_mem_drop (List.mem_of_mem_take hx))
    by_cases hm : 128 ≤ byteAt data 1
    · have hmB : ((byteAt data 1 &&& 128) != 0) = true := by
        rw [bne_iff_ne]
        intro hzero
        rw [and_128_eq_zero_iff _ hb1] at hzero
        omega
      simp only [parseFrameHeaderHdr, parseFrameHeaderSpec, maskFinish, hshort,
        hlen16, hbe, hmB, if_neg hlen, if_true, hm, if_pos]
      rcases Nat.lt_trichotomy (byteAt data 1 % 128) 126 with hs | hs | hs
      · have h125 : byteAt data 1 % 128 ≤ 125 := by omega
        have hne126 : ¬ (byteAt data 1 % 128 = 126) := by omega
        have hne127 : ¬ (byteAt data 1 % 128 = 127) := by omega
        simp only [hne126, hne127, if_false, if_pos h125]
        by_cases havail : data.length < 2 + 4
        · simp [havail]
        · simp [havail]
      · simp only [hs, if_pos, if_true]
        by_cases h4 : data.length < 4
        · simp [h4, if_pos]
        · simp only [h4, if_false]
          by_cases havail : data.length < 4 + 4
          · simp [havail, hs]
          · simp [havail, hs]
      · have hne126 : ¬ (byteAt data 1 % 128 = 126) := by omega
        have h127 : byteAt data 1 % 128 = 127 := by
          have := Nat.mod_lt (byteAt data 1) (show 0 < 128 by norm_num)
          omega
        have hnle : ¬ (byteAt data 1 % 128 ≤ 125) := by omega
        simp only [hne126, if_false, h127, if_pos, if_true, hnle]
        by_cases h10 : data.length < 10
        · simp [h10]
        · simp only [h10, if_false]
          by_cases havail : data.length < 10 + 4
          · simp [havail]
          · simp [havail]
    · have hmB : ((byteAt data 1 &&& 128) != 0) = false := by
        have hzero : byteAt data 1 &&& 128 = 0 := by
          rw [and_128_eq_zero_iff _ hb1]
          omega
        simp [hzero]
      simp only [parseFrameHeaderHdr, parseFrameHeaderSpec, maskFinish, hshort,
        hlen16, hbe, hmB, if_neg hlen, if_false, hm]
      rcases Nat.lt_trichotomy (byteAt data 1 % 128) 126 with hs | hs | hs
      · have h125 : byteAt data 1 % 128 ≤ 125 := by omega
        have hne126 : ¬ (byteAt data 1 % 128 = 126) := by omega
        have hne127 : ¬ (byteAt data 1 % 128 = 127) := by omega
        simp [hne126, hne127, h125]
      · simp only [hs, if_pos, if_true]
        by_cases h4 : data.length < 4
        · simp [h4]
        · simp [h4, hs]
      · have hne126 : ¬ (byteAt data 1 % 128 = 126) := by omega
        have h127 : byteAt data 1 % 128 = 127 := by
          have := Nat.mod_lt (byteAt data 1) (show 0 < 128 by norm_num)
          omega
        have hnle : ¬ (byteAt data 1 % 128 ≤ 125) := by omega
        simp only [hne126, if_false, h127, if_pos, if_true, hnle]
        by_cases h10 : data.length < 10
        · simp [h10]
        · simp [h10]

/-! SHA-1

`process_block` is textually identical in `ewss.hpp` (lines 603-623) and
`ewss/utils.hpp` (lines 155-198) and is embedded once.  The surrounding
`update`/`finalize` machinery differs between the two files and is
embedded separately below.  32-bit words are `Nat` values reduced modulo
`2 ^ 32` after every arithmetic step. -/

/-- Reduction to a `uint32_t` value. -/
def u32 (n : Nat) : Nat := n % 4294967296

/-- `rol`: `(x << n) | (x >> (32 - n))` on `uint32_t`. -/
def rol32 (x : Nat) (n : Nat) : Nat := u32 (x <<< n) ||| (x >>> (32 - n))

/-- Load word `i` of the 64-byte block, big-endian. -/
def sha1W16 (block : Nat → Nat) (i : Nat) : Nat :=
  (block (i * 4) <<< 24) ||| (block (i * 4 + 1) <<< 16) |||
    (block (i * 4 + 2) <<< 8) ||| block (i * 4 + 3)

/-- Message-schedule extension: `w[i] = rol(w[i-3]^w[i-8]^w[i-14]^w[i-16], 1)`
applied `n` more times. -/
def sha1Extend : List Nat → Nat → List Nat
  | w, 0 => w
  | w, n + 1 =>
      sha1Extend (w ++ [rol32 (w.getD (w.length - 3) 0 ^^^ w.getD (w.length - 8) 0 ^^^
        w.getD (w.length - 14) 0 ^^^ w.getD (w.length - 16) 0) 1]) n

/-- The 80-entry message schedule of a block. -/
def sha1Schedule (block : Nat → Nat) : List Nat :=
  sha1Extend ((List.range 16).map (sha1W16 block)) 64

/-- Round function `f` (the `~b` complement is `b ^ 0xFFFFFFFF` on a
32-bit word). -/
def sha1F (i b c d : Nat) : Nat :=
  if i < 20 then (b &&& c) ||| ((b ^^^ 4294967295) &&& d)
  else if i < 40 then b ^^^ c ^^^ d
  else if i < 60 then (b &&& c) ||| (b &&& d) ||| (c &&& d)
  else b ^^^ c ^^^ d

/-- Round constant `k`. -/
def sha1K (i : Nat) : Nat :=
  if i < 20 then 1518500249 else if i < 40 then 1859775393
  else if i < 60 then 2400959708 else 3395469782

/-- One round: `temp = rol(a,5) + f + e + k + w[i]; e=d; d=c; c=rol(b,30);
b=a; a=temp`. -/
def sha1Round (st : Nat × Nat × Nat × Nat × Nat) (iw : Nat × Nat) :
    Nat × Nat × Nat × Nat × Nat :=
  let temp := u32 (rol32 st.1 5 + sha1F iw.1 st.2.1 st.2.2.1 st.2.2.2.1 +
    st.2.2.2.2 + sha1K iw.1 + iw.2)
  (temp, st.1, rol32 st.2.1 30, st.2.2.1, st.2.2.2.1)

/-- `process_block`: runs 80 rounds over the schedule and adds the result
into the chaining state. -/
def processBlock (block : Nat → Nat) (hs : Nat × Nat × Nat × Nat × Nat) :
    Nat × Nat × Nat × Nat × Nat :=
  let w := sha1Schedule block
  let r := w.enum.foldl sha1Round hs
  (u32 (hs.1 + r.1), u32 (hs.2.1 + r.2.1), u32 (hs.2.2.1 + r.2.2.1),
    u32 (hs.2.2.2.1 + r.2.2.2.1), u32 (hs.2.2.2.2 + r.2.2.2.2))

/-- Big-endian bytes of a 32-bit word, as emitted by `finalize`. -/
def wordBytes (w : Nat) : List Nat :=
  [(w >>> 24) &&& 255, (w >>> 16) &&& 255, (w >>> 8) &&& 255, w &&& 255]

/-- Zero-fill of `buffer_[fromIdx .. toIdx)`. -/
def padZeros (buffer : Nat → Nat) (fromIdx toIdx : Nat) : Nat → Nat :=
  fun j => if fromIdx ≤ j ∧ j < toIdx then 0 else buffer j

/-! The `ewss.hpp` SHA1 class (lines 546-624) -/

/-- State of the `ewss.hpp` `SHA1` object: chaining words, the 64-byte
staging buffer, `buf_pos_` and `total_bytes_`. -/
structure Sha1Ctx where
  hs : Nat × Nat × Nat × Nat × Nat
  buffer : Nat → Nat
  bufPos : Nat
  totalBytes : Nat

/-- Freshly constructed `SHA1`. -/
def sha1Init : Sha1Ctx :=
  { hs := (1732584193, 4023233417, 2562383102, 271733878, 3285377520),
    buffer := fun _ => 0, bufPos := 0, totalBytes := 0 }

/-- `update` body for one byte: stage it, and process the block when the
staging buffer fills. -/
def sha1UpdateByte (ctx : Sha1Ctx) (b : Nat) : Sha1Ctx :=
  let buffer := fun j => if j = ctx.bufPos then b else ctx.buffer j
  let pos := ctx.bufPos + 1
  if pos = 64 then
    { hs := processBlock buffer ctx.hs, buffer := buffer, bufPos := 0,
      totalBytes := ctx.totalBytes + 1 }
  else
    { hs := ctx.hs, buffer := buffer, bufPos := pos,
      totalBytes := ctx.totalBytes + 1 }

/-- `update(data, size)`. -/
def sha1Update (ctx : Sha1Ctx) (data : List Nat) : Sha1Ctx :=
  data.foldl sha1UpdateByte ctx

/-- `finalize()`: append `0x80`, pad, spill to an extra block when the
padding does not fit, write the bit length big-endian into bytes 56..63,
process, and emit the 20 digest bytes. -/
def sha1Finalize (ctx : Sha1Ctx) : List Nat :=
  let buf1 := fun j => if j = ctx.bufPos then 128 else ctx.buffer j
  let pos1 := ctx.bufPos + 1
  let spilled :=
    if 56 < pos1 then
      (padZeros buf1 pos1 64, 0)
    else (buf1, pos1)
  let hs1 :=
    if 56 < pos1 then processBlock spilled.1 ctx.hs else ctx.hs
  let buf2 := padZeros spilled.1 spilled.2 56
  let totalBits := ctx.totalBytes * 8
  let buf3 := fun j =>
    if 56 ≤ j ∧ j < 64 then (totalBits >>> ((63 - j) * 8)) &&& 255 else buf2 j
  let hf := processBlock buf3 hs1
  wordBytes hf.1 ++ wordBytes hf.2.1 ++ wordBytes hf.2.2.1 ++
    wordBytes hf.2.2.2.1 ++ wordBytes hf.2.2.2.2

/-- `SHA1::compute(data, size)` of `ewss.hpp`. -/
def sha1Compute (data : List Nat) : List Nat :=
  sha1Finalize (sha1Update sha1Init data)

/-! The `ewss/utils.hpp` SHA1 class (lines 87-199)

This implementation keeps no separate length counter: it derives the
staging-buffer offset from `h_[0]` (`(h_[0] >> 3) & 0x3F`) and adds the
message bit-length into `h_[0]`/`h_[1]`, although both words also serve
as SHA-1 chaining state and are overwritten by every `process_block`.
Its `finalize` also shifts the 32-bit `h_[1]` right by up to 56 bit
positions, which is undefined behaviour in C++ for shift counts ≥ 32; the
embedding is parameterised over the shift semantics (`n`-as-written,
yielding 0, or `n mod 32` as x86 hardware does). -/

structure Sha1UtilsCtx where
  hs : Nat × Nat × Nat × Nat × Nat
  buffer : Nat → Nat

/-- Freshly constructed `utils.hpp` `SHA1`. -/
def sha1UtilsInit : Sha1UtilsCtx :=
  { hs := (1732584193, 4023233417, 2562383102, 271733878, 3285377520),
    buffer := fun _ => 0 }

/-- The byte loop of `utils.hpp::update`, carrying `r` explicitly. -/
def sha1UtilsLoop : List Nat → (Nat → Nat) → Nat → (Nat × Nat × Nat × Nat × Nat) →
    ((Nat → Nat) × Nat × (Nat × Nat × Nat × Nat × Nat))
  | [], buf, r, hs => (buf, r, hs)
  | b :: rest, buf, r, hs =>
      let buf1 := fun j => if j = r then b else buf j
      let r1 := r + 1
      if r1 = 64 then sha1UtilsLoop rest buf1 0 (processBlock buf1 hs)
      else sha1UtilsLoop rest buf1 r1 hs

/-- `utils.hpp::update`: `r = (h_[0] >> 3) & 0x3F; h_[0] += size << 3;
h_[1] += size >> 29;` then the byte loop. -/
def sha1UtilsUpdate (ctx : Sha1UtilsCtx) (data : List Nat) : Sha1UtilsCtx :=
  let r := (ctx.hs.1 >>> 3) &&& 63
  let h0 := u32 (ctx.hs.1 + u32 ((data.length % 4294967296) <<< 3))
  let h1 := u32 (ctx.hs.2.1 + ((data.length % 4294967296) >>> 29))
  let res := sha1UtilsLoop data ctx.buffer r
    (h0, h1, ctx.hs.2.2.1, ctx.hs.2.2.2.1, ctx.hs.2.2.2.2)
  { hs := res.2.2, buffer := res.1 }

/-- `utils.hpp::finalize`, parameterised by the semantics `sem` given to
the (undefined-behaviour) right shift `h_[1] >> (8 * (7 - i))`. -/
def sha1UtilsFinalize (sem : Nat → Nat → Nat) (ctx : Sha1UtilsCtx) : List Nat :=
  let r := (ctx.hs.1 >>> 3) &&& 63
  let buf1 := fun j => if j = r then 128 else ctx.buffer j
  let r1 := r + 1
  let spilled :=
    if 56 < r1 then (padZeros buf1 r1 64, 0) else (buf1, r1)
  let hs1 :=
    if 56 < r1 then processBlock spilled.1 ctx.hs else ctx.hs
  let buf2 := padZeros spilled.1 spilled.2 56
  let buf3 := fun j =>
    if 56 ≤ j ∧ j < 64 then (sem hs1.2.1 (8 * (63 - j))) &&& 255 else buf2 j
  let hf := processBlock buf3 hs1
  wordBytes hf.1 ++ wordBytes hf.2.1 ++ wordBytes hf.2.2.1 ++
    wordBytes hf.2.2.2.1 ++ wordBytes hf.2.2.2.2

/-- Shift semantics: count taken as written (a logical shift by ≥ 32 of a
32-bit value yields 0). -/
def shiftAsWritten (x n : Nat) : Nat := x >>> n

/-- Shift semantics of x86 hardware: count reduced modulo 32. -/
def shiftMod32 (x n : Nat) : Nat := x >>> (n % 32)

/-- `SHA1::compute` of `utils.hpp` under the given shift semantics. -/
def sha1UtilsCompute (sem : Nat → Nat → Nat) (data : List Nat) : List Nat :=
  sha1UtilsFinalize sem (sha1UtilsUpdate sha1UtilsInit data)

/-! Base64 (`ewss.hpp` lines 478-495; `utils.hpp` copy is textually
identical) -/

/-- The encoding alphabet. -/
def base64Alphabet : List Char :=
  "ABCDEFGHIJKLMNOPQRSTUVWXYZabcdefghijklmnopqrstuvwxyz0123456789+/".toList

/-- Alphabet lookup. -/
def b64chr (i : Nat) : Char := base64Alphabet.getD i 'A'

/-- `Base64::encode`, chunked three input bytes at a time exactly as the
`for (i += 3)` loop with its `i + 1 < size` / `i + 2 < size` tests. -/
def base64Encode : List Nat → List Char
  | [] => []
  | [a] =>
      let b := a <<< 16
      [b64chr ((b >>> 18) &&& 63), b64chr ((b >>> 12) &&& 63), '=', '=']
  | [a, a2] =>
      let b := (a <<< 16) ||| (a2 <<< 8)
      [b64chr ((b >>> 18) &&& 63), b64chr ((b >>> 12) &&& 63),
        b64chr ((b >>> 6) &&& 63), '=']
  | a :: a2 :: a3 :: rest =>
      let b := (a <<< 16) ||| (a2 <<< 8) ||| a3
      b64chr ((b >>> 18) &&& 63) :: b64chr ((b >>> 12) &&& 63) ::
        b64chr ((b >>> 6) &&& 63) :: b64chr (b &&& 63) :: base64Encode rest

/-- ASCII bytes of a string. -/
def strBytes (s : String) : List Nat := s.toList.map Char.toNat

/-- The RFC 6455 GUID appended to the client key. -/
def wsMagic : List Nat := strBytes "258EAFA5-E914-47DA-95CA-C5AB0DC85B11"

/-- `Connection::generate_accept_key` (`ewss.hpp` lines 1496-1502):
Base64 of the `ewss.hpp` SHA-1 over key ++ GUID. -/
def generateAcceptKey (clientKey : List Nat) : List Char :=
  base64Encode (sha1Compute (clientKey ++ wsMagic))

/-- The same computation as performed by the modular build
(`ewss/connection.hpp` line 242), which uses the `utils.hpp` SHA-1. -/
def generateAcceptKeyUtils (sem : Nat → Nat → Nat) (clientKey : List Nat) : List Char :=
  base64Encode (sha1UtilsCompute sem (clientKey ++ wsMagic))

/-! Connection

The `Connection` class of `ewss.hpp` (lines 932-1522).  User callbacks
(`on_open`, `on_message`, `on_close`, `on_backpressure`, `on_drain`) are
modelled as populated slots whose invocations are appended to an event
trace; the model treats them as observers that do not re-enter the
connection.  Timestamps are not modelled (no claim below depends on
wall-clock values). -/

inductive ErrorCode where
  | kOk
  | kBufferFull
  | kBufferEmpty
  | kHandshakeFailed
  | kFrameParseError
  | kConnectionClosed
  | kInvalidState
  | kSocketError
  | kTimeout
  | kMaxConnectionsExceeded
  | kInternalError
  deriving DecidableEq

inductive ConnectionState where
  | kHandshaking
  | kOpen
  | kClosing
  | kClosed
  deriving DecidableEq

/-- One user-callback invocation. -/
inductive CallbackEvent where
  | onOpen
  | onMessage (payload : List Nat)
  | onClose (clean : Bool)
  | onBackpressure
  | onDrain
  deriving DecidableEq

/-- Connection state: protocol tag (the `ops_` table pointer), the two
rings, whether the socket is open, `last_error_code_`, `write_paused_`,
and the trace of callback invocations. -/
structure Conn where
  state : ConnectionState
  rx : RingBuffer
  tx : RingBuffer
  socketOpen : Bool
  lastError : ErrorCode
  writePaused : Bool
  events : List CallbackEvent

def kRxBufferSize : Nat := 4096
def kTxBufferSize : Nat := 8192
def kTxHighWatermark : Nat := kTxBufferSize * 3 / 4
def kTxLowWatermark : Nat := kTxBufferSize / 4

namespace Conn

/-- Record one callback invocation. -/
def fireEvent (c : Conn) (e : CallbackEvent) : Conn :=
  { c with events := c.events ++ [e] }

/-- `Connection::transition_to_state` (lines 1338-1354): switches the
`ops_` table; entering Open fires `on_open`, entering Closed fires
`on_close(clean = true)` unconditionally. -/
def transitionToState (c : Conn) (s : ConnectionState) : Conn :=
  match s with
  | ConnectionState.kHandshaking => { c with state := s }
  | ConnectionState.kOpen => fireEvent { c with state := s } CallbackEvent.onOpen
  | ConnectionState.kClosing => { c with state := s }
  | ConnectionState.kClosed =>
      fireEvent { c with state := s } (CallbackEvent.onClose true)

/-- `Connection::write_frame` (lines 1478-1484): encode a fin-set header,
push it, bail out when the header does not fit, then push the payload
discarding that push's result. -/
def writeFrame (c : Conn) (payload : List Nat) (opcode : Nat) : Conn :=
  let header := encodeFrameHeader opcode payload.length false
  let hp := c.tx.push header
  if hp.1 = false then c
  else if payload.isEmpty then { c with tx := hp.2 }
  else { c with tx := (hp.2.push payload).2 }

/-- `Connection::write_close_frame` (lines 1486-1494). -/
def writeCloseFrame (c : Conn) (code : Nat) : Conn :=
  let closePayload := [(code >>> 8) &&& 255, code &&& 255]
  let hp := c.tx.push (encodeFrameHeader 8 2 false)
  if hp.1 = false then c
  else { c with tx := (hp.2.push closePayload).2 }

/-- `Connection::check_high_watermark` (lines 1508-1513). -/
def checkHighWatermark (c : Conn) : Conn :=
  if c.writePaused = false ∧ kTxHighWatermark < c.tx.count then
    fireEvent { c with writePaused := true } CallbackEvent.onBackpressure
  else c

/-- `Connection::check_low_watermark` (lines 1515-1520). -/
def checkLowWatermark (c : Conn) : Conn :=
  if c.writePaused = true ∧ c.tx.count < kTxLowWatermark then
    fireEvent { c with writePaused := false } CallbackEvent.onDrain
  else c

/-- `Connection::send_impl` (lines 1316-1321): no-op outside Open;
otherwise write a text/binary frame and check the high watermark. -/
def sendImpl (c : Conn) (payload : List Nat) (binary : Bool) : Conn :=
  if c.state ≠ ConnectionState.kOpen then c
  else checkHighWatermark (writeFrame c payload (if binary then 2 else 1))

/-- `Connection::close` (lines 1323-1332). -/
def close (c : Conn) (code : Nat) : Conn :=
  if c.state = ConnectionState.kClosed then c
  else if c.state = ConnectionState.kOpen then
    transitionToState (writeCloseFrame c code) ConnectionState.kClosing
  else
    { (transitionToState c ConnectionState.kClosed) with socketOpen := false }

/-- `Connection::unmask_payload` (lines 1504-1506). -/
def unmaskPayload (payload mask : List Nat) : List Nat :=
  (List.range payload.length).map (fun i => payload.getD i 0 ^^^ mask.getD (i % 4) 0)

/-- One pass of the `while (true)` loop of `Connection::parse_frames`
(lines 1431-1476), with explicit fuel.  Every recursive call advances the
RX ring by a complete frame (at least 2 bytes), so `rx.count + 1` units
of fuel always suffice. -/
def parseFramesGo : Nat → Conn → Conn
  | 0, c => c
  | fuel + 1, c =>
    let data := c.rx.peek 4096
    if data.length = 0 then c
    else
      let ph := parseFrameHeaderHdr data
      if ph.1 = 0 then c
      else
        let total := ph.1 + ph.2.payloadLen
        if data.length < total then c
        else
          let maskKey := (data.drop (ph.1 - 4)).take 4
          let rawPayload := (data.drop ph.1).take ph.2.payloadLen
          let payload := if ph.2.masked then unmaskPayload rawPayload maskKey
            else rawPayload
          if ph.2.opcode = 1 ∨ ph.2.opcode = 2 then
            parseFramesGo fuel
              { (fireEvent c (CallbackEvent.onMessage payload)) with
                  rx := c.rx.advance total }
          else if ph.2.opcode = 8 then
            { (transitionToState (fireEvent c (CallbackEvent.onClose false))
                ConnectionState.kClosed) with socketOpen := false }
          else if ph.2.opcode = 9 then
            parseFramesGo fuel
              { (writeFrame c payload 10) with
                  rx := (writeFrame c payload 10).rx.advance total }
          else
            parseFramesGo fuel { c with rx := c.rx.advance total }

/-- `Connection::parse_frames`. -/
def parseFrames (c : Conn) : Conn := parseFramesGo (c.rx.count + 1) c

end Conn

/-! Handshake parsing -/

/-- `std::string_view::find(pat, start)` over byte lists: the first
position at or after `start` where `pat` occurs. -/
def findFromAux (pat data : List Nat) : Nat → Nat → Option Nat
  | _, 0 => none
  | i, fuel + 1 =>
      if pat.isPrefixOf (data.drop i) then some i
      else findFromAux pat data (i + 1) fuel

def findFrom (pat data : List Nat) (start : Nat) : Option Nat :=
  findFromAux pat data start (data.length + 1 - start)

/-- Trailing space/tab trim of the key value (the `remove_suffix`
loop). -/
def trimTrailingWs (l : List Nat) : List Nat :=
  (l.reverse.dropWhile (fun b => b == 32 || b == 9)).reverse

def crlfcrlfBytes : List Nat := [13, 10, 13, 10]
def crlfBytes : List Nat := [13, 10]
def keyHeaderBytes : List Nat := strBytes "Sec-WebSocket-Key: "
def keyHeaderLowerBytes : List Nat := strBytes "sec-websocket-key: "
def getSpaceBytes : List Nat := strBytes "GET "
def httpResponsePre : List Nat :=
  strBytes "HTTP/1.1 101 Switching Protocols\r\nUpgrade: websocket\r\nConnection: Upgrade\r\nSec-WebSocket-Accept: "
def httpResponseSuf : List Nat := strBytes "\r\n\r\n"

namespace Conn

/-- `Connection::parse_handshake` (`ewss.hpp` lines 1356-1429).  Returns
the `expected<void, ErrorCode>` result next to the updated connection.
The `handshake_completed_` flag and the cleared cached key are not
modelled (no claim reads them); the `snprintf` of the 101 response is
modelled as the concatenation of its literal parts with the accept key,
together with the source's length-vs-buffer check. -/
def parseHandshake (c : Conn) : Except ErrorCode Unit × Conn :=
  let data := c.rx.peek 1024
  if data.length = 0 then (Except.error ErrorCode.kHandshakeFailed, c)
  else
    match findFrom crlfcrlfBytes data 0 with
    | none => (Except.error ErrorCode.kHandshakeFailed, c)
    | some endPos =>
      let handshakeSize := endPos + 4
      if data.take 4 ≠ getSpaceBytes then
        (Except.error ErrorCode.kHandshakeFailed,
          { c with lastError := ErrorCode.kHandshakeFailed })
      else
        let keyPos :=
          match findFrom keyHeaderBytes data 0 with
          | some p => some p
          | none => findFrom keyHeaderLowerBytes data 0
        match keyPos with
        | none =>
            (Except.error ErrorCode.kHandshakeFailed,
              { c with lastError := ErrorCode.kHandshakeFailed })
        | some kp =>
          let valueStart := kp + keyHeaderBytes.length
          match findFrom crlfBytes data valueStart with
          | none =>
              (Except.error ErrorCode.kHandshakeFailed,
                { c with lastError := ErrorCode.kHandshakeFailed })
          | some valueEnd =>
            let wsKey := trimTrailingWs ((data.drop valueStart).take (valueEnd - valueStart))
            if wsKey.isEmpty then
              (Except.error ErrorCode.kHandshakeFailed,
                { c with lastError := ErrorCode.kHandshakeFailed })
            else
              let c1 := { c with rx := c.rx.advance handshakeSize }
              let response :=
                httpResponsePre ++ (generateAcceptKey wsKey).map Char.toNat ++
                  httpResponseSuf
              if 256 ≤ response.length then
                (Except.error ErrorCode.kHandshakeFailed,
                  { c1 with lastError := ErrorCode.kHandshakeFailed })
              else
                let tp := c1.tx.push response
                if tp.1 = false then
                  (Except.error ErrorCode.kBufferFull,
                    { c1 with lastError := ErrorCode.kBufferFull })
                else (Except.ok (), { c1 with tx := tp.2, lastError := ErrorCode.kOk })

/-- `detail::handshake_on_data` (lines 1127-1134): on success transition
to Open (firing `on_open`), otherwise propagate the error. -/
def handshakeOnData (c : Conn) : Except ErrorCode Unit × Conn :=
  match parseHandshake c with
  | (Except.ok _, c1) => (Except.ok (), transitionToState c1 ConnectionState.kOpen)
  | (Except.error e, c1) => (Except.error e, c1)

/-- `detail::closing_on_data` (lines 1162-1175). -/
def closingOnData (c : Conn) : Except ErrorCode Unit × Conn :=
  let data := c.rx.peek 1024
  if 0 < data.length then
    let ph := parseFrameHeaderHdr data
    if 0 < ph.1 ∧ ph.2.opcode = 8 then
      (Except.ok (),
        { (transitionToState c ConnectionState.kClosed) with socketOpen := false })
    else (Except.ok (), c)
  else (Except.ok (), c)

/-- The per-state `on_data` dispatch through the `ops_` table. -/
def stateOnData (c : Conn) : Except ErrorCode Unit × Conn :=
  match c.state with
  | ConnectionState.kHandshaking => handshakeOnData c
  | ConnectionState.kOpen => (Except.ok (), parseFrames c)
  | ConnectionState.kClosing => closingOnData c
  | ConnectionState.kClosed => (Except.error ErrorCode.kConnectionClosed, c)

/-- The `n > 0` branch of `Connection::handle_read` (lines 1243-1249),
entered after the received bytes have been committed into the RX ring:
`ops_->on_data(*this);` — whose result is discarded — then
`last_error_code_ = kOk; return success;`. -/
def handleReadDelivered (c : Conn) : Except ErrorCode Unit × Conn :=
  let r := stateOnData c
  (Except.ok (), { r.2 with lastError := ErrorCode.kOk })

/-- The `POLLIN` branch of `Server::handle_connection_io` (lines
1657-1660): run `handle_read`; a failed result closes the connection.
The server statistics are not touched on this path. -/
def reactorHandleReadable (c : Conn) : Conn :=
  match handleReadDelivered c with
  | (Except.ok _, c1) => c1
  | (Except.error _, c1) => close c1 1000

/-- `Connection::handle_write_vectored` (lines 1288-1314) on an open
socket, with the kernel accepting `n` bytes of the gathered TX content
(`n = 0` stands for the EAGAIN/EWOULDBLOCK no-op): advance the TX ring by
the bytes written and check the low watermark. -/
def handleWriteVectoredDelivered (c : Conn) (n : Nat) : Conn :=
  if c.tx.count = 0 then { c with lastError := ErrorCode.kOk }
  else if n = 0 then { c with lastError := ErrorCode.kOk }
  else checkLowWatermark { c with tx := c.tx.advance n, lastError := ErrorCode.kOk }

end Conn

/-! Backpressure machinery (claim C6)

I/O steps that an Open connection undergoes: user sends, and socket
writes with the kernel accepting some number of bytes. -/

namespace Conn

inductive OpenIOStep where
  | send (payload : List Nat) (binary : Bool)
  | sockWrite (n : Nat)

def openStep (c : Conn) : OpenIOStep → Conn
  | OpenIOStep.send p b => sendImpl c p b
  | OpenIOStep.sockWrite n => handleWriteVectoredDelivered c n

def runOpenSteps (c : Conn) : List OpenIOStep → Conn
  | [] => c
  | s :: rest => runOpenSteps (openStep c s) rest

/-- Number of `on_backpressure` invocations so far. -/
def bpCount (c : Conn) : Nat := c.events.count CallbackEvent.onBackpressure

/-- Number of `on_drain` invocations so far. -/
def drainCount (c : Conn) : Nat := c.events.count CallbackEvent.onDrain

/-- The backpressure invariant of an Open connection: the state stays
Open; when unpaused the TX fill is at or below the high watermark (so a
later backpressure fire is a genuine crossing from below); when paused
the TX fill is at or above the low watermark (so a later drain fire is a
genuine crossing from above); and `on_backpressure` has fired exactly
once more than `on_drain` exactly when the write-paused flag is set —
which is the strict alternation backpressure/drain/backpressure/... -/
def WatermarkInv (c : Conn) : Prop :=
  c.state = ConnectionState.kOpen ∧
  (c.writePaused = false → c.tx.count ≤ kTxHighWatermark) ∧
  (c.writePaused = true → kTxLowWatermark ≤ c.tx.count) ∧
  bpCount c = drainCount c + (if c.writePaused then 1 else 0)

instance decWatermarkInv (c : Conn) : Decidable (WatermarkInv c) := by
  unfold WatermarkInv
  exact inferInstance

theorem writeFrame_ghost (c : Conn) (p : List Nat) (o : Nat) :
    (writeFrame c p o).writePaused = c.writePaused ∧
    (writeFrame c p o).events = c.events ∧
    (writeFrame c p o).state = c.state ∧
    (writeFrame c p o).socketOpen = c.socketOpen := by
  unfold writeFrame
  by_cases h1 : (c.tx.push (encodeFrameHeader o p.length false)).1 = false
  · simp [h1]
  · by_cases h2 : p.isEmpty <;> simp [h1, h2]

theorem push_count_le (rb : RingBuffer) (data : List Nat) :
    rb.count ≤ (rb.push data).2.count := by
  unfold RingBuffer.push
  by_cases h : rb.available < data.length <;> simp [h]

theorem writeFrame_count_mono (c : Conn) (p : List Nat) (o : Nat) :
    c.tx.count ≤ (writeFrame c p o).tx.count := by
  unfold writeFrame
  by_cases h1 : (c.tx.push (encodeFrameHeader o p.length false)).1 = false
  · simp [h1]
  · by_cases h2 : p.isEmpty
    · simp only [h1, if_false, h2, if_true]
      exact push_count_le c.tx _
    · simp only [h1, if_false, h2]
      exact le_trans (push_count_le c.tx _) (push_count_le _ p)

theorem advance_count_le (rb : RingBuffer) (n : Nat) :
    (rb.advance n).count ≤ rb.count := by
  show rb.count - min n rb.count ≤ rb.count
  omega

theorem count_fireEvent (c : Conn) (e a : CallbackEvent) :
    (fireEvent c e).events.count a =
      c.events.count a + (if e = a then 1 else 0) := by
  unfold fireEvent
  rw [List.count_append]
  by_cases h : e = a <;> simp [h, List.count_cons]

theorem checkHigh_cases (d : Conn) :
    (d.writePaused = false ∧ kTxHighWatermark < d.tx.count ∧
      checkHighWatermark d =
        fireEvent { d with writePaused := true } CallbackEvent.onBackpressure) ∨
    ((d.writePaused = true ∨ d.tx.count ≤ kTxHighWatermark) ∧
      checkHighWatermark d = d) := by
  unfold checkHighWatermark
  by_cases hg : d.writePaused = false ∧ kTxHighWatermark < d.tx.count
  · left
    exact ⟨hg.1, hg.2, if_pos hg⟩
  · right
    refine ⟨?_, if_neg hg⟩
    rw [not_and] at hg
    by_cases hp : d.writePaused = true
    · exact Or.inl hp
    · have hfalse : d.writePaused = false := by
        cases h : d.writePaused
        · rfl
        · exact absurd h hp
      exact Or.inr (by have := hg hfalse; omega)

theorem checkLow_cases (d : Conn) :
    (d.writePaused = true ∧ d.tx.count < kTxLowWatermark ∧
      checkLowWatermark d =
        fireEvent { d with writePaused := false } CallbackEvent.onDrain) ∨
    ((d.writePaused = false ∨ kTxLowWatermark ≤ d.tx.count) ∧
      checkLowWatermark d = d) := by
  unfold checkLowWatermark
  by_cases hg : d.writePaused = true ∧ d.tx.count < kTxLowWatermark
  · left
    exact ⟨hg.1, hg.2, if_pos hg⟩
  · right
    refine ⟨?_, if_neg hg⟩
    rw [not_and] at hg
    by_cases hp : d.writePaused = true
    · exact Or.inr (by have := hg hp; omega)
    · refine Or.inl ?_
      cases h : d.writePaused
      · rfl
      · exact absurd h hp

/-- On an Open connection `send_impl` is the high-watermark check applied
to the frame write. -/
theorem sendImpl_eq_open (c : Conn) (p : List Nat) (b : Bool)
    (hopen : c.state = ConnectionState.kOpen) :
    sendImpl c p b = checkHighWatermark (writeFrame c p (if b then 2 else 1)) := by
  unfold sendImpl
  rw [if_neg (show ¬(c.state ≠ ConnectionState.kOpen) from by rw [hopen]; simp)]

/-- The connection as mutated by the write branch before the low-watermark
check: TX advanced by the written bytes. -/
def advTx (c : Conn) (n : Nat) : Conn :=
  { c with tx := c.tx.advance n, lastError := ErrorCode.kOk }

/-- The non-trivial branch of the vectored write is the low-watermark
check applied to the advanced TX ring. -/
theorem handleWrite_eq (c : Conn) (n : Nat) (h0 : c.tx.count ≠ 0) (hn : n ≠ 0) :
    handleWriteVectoredDelivered c n = checkLowWatermark (advTx c n) := by
  unfold handleWriteVectoredDelivered advTx
  rw [if_neg h0, if_neg hn]

theorem watermarkInv_send (c : Conn) (p : List Nat) (b : Bool)
    (hI : WatermarkInv c) : WatermarkInv (sendImpl c p b) := by
  obtain ⟨hopen, hhi, hlo, hcnt⟩ := hI
  rw [sendImpl_eq_open c p b hopen]
  have hg := writeFrame_ghost c p (if b then 2 else 1)
  have hmono := writeFrame_count_mono c p (if b then 2 else 1)
  have hLH : kTxLowWatermark < kTxHighWatermark := by decide
  rcases checkHigh_cases (writeFrame c p (if b then 2 else 1)) with
    ⟨hp, hcross, heq⟩ | ⟨hside, heq⟩
  · rw [heq]
    rw [hg.1] at hp
    refine ⟨?_, ?_, ?_, ?_⟩
    · show (writeFrame c p (if b then 2 else 1)).state = ConnectionState.kOpen
      rw [hg.2.2.1, hopen]
    · intro hcontra
      exact absurd hcontra (by simp [fireEvent])
    · intro _
      show kTxLowWatermark ≤ (writeFrame c p (if b then 2 else 1)).tx.count
      omega
    · show ((writeFrame c p (if b then 2 else 1)).events ++
          [CallbackEvent.onBackpressure]).count CallbackEvent.onBackpressure =
        ((writeFrame c p (if b then 2 else 1)).events ++
          [CallbackEvent.onBackpressure]).count CallbackEvent.onDrain +
          (if true then 1 else 0)
      rw [List.count_append, List.count_append, hg.2.1]
      unfold bpCount drainCount at hcnt
      rw [hp] at hcnt
      simp only [if_false, Bool.false_eq_true, if_true] at hcnt ⊢
      simp [List.count_cons, hcnt]
  · rw [heq]
    refine ⟨by rw [hg.2.2.1, hopen], ?_, ?_, ?_⟩
    · intro hfp
      rw [hg.1] at hfp
      rcases hside with hp | hbound
      · rw [hg.1] at hp
        rw [hp] at hfp
        exact absurd hfp (by simp)
      · exact hbound
    · intro htp
      rw [hg.1] at htp
      have := hlo htp
      show kTxLowWatermark ≤ (writeFrame c p (if b then 2 else 1)).tx.count
      omega
    · show bpCount (writeFrame c p (if b then 2 else 1)) =
        drainCount (writeFrame c p (if b then 2 else 1)) +
          (if (writeFrame c p (if b then 2 else 1)).writePaused then 1 else 0)
      unfold bpCount drainCount
      rw [hg.2.1, hg.1]
      exact hcnt

theorem watermarkInv_write (c : Conn) (n : Nat)
    (hI : WatermarkInv c) : WatermarkInv (handleWriteVectoredDelivered c n) := by
  obtain ⟨hopen, hhi, hlo, hcnt⟩ := hI
  have hadv := advance_count_le c.tx n
  by_cases h0 : c.tx.count = 0
  · unfold handleWriteVectoredDelivered
    rw [if_pos h0]
    exact ⟨hopen, hhi, hlo, hcnt⟩
  · by_cases hn : n = 0
    · unfold handleWriteVectoredDelivered
      rw [if_neg h0, if_pos hn]
      exact ⟨hopen, hhi, hlo, hcnt⟩
    · rw [handleWrite_eq c n h0 hn]
      rcases checkLow_cases (advTx c n) with ⟨hp, hlow, heq⟩ | ⟨hside, heq⟩
      · rw [heq]
        have hpc : c.writePaused = true := hp
        have hlowc : (c.tx.advance n).count < kTxLowWatermark := hlow
        refine ⟨hopen, ?_, ?_, ?_⟩
        · intro _
          show (c.tx.advance n).count ≤ kTxHighWatermark
          have hLH : kTxLowWatermark < kTxHighWatermark := by decide
          omega
        · intro hcontra
          exact absurd hcontra (by simp [fireEvent])
        · show (c.events ++ [CallbackEvent.onDrain]).count CallbackEvent.onBackpressure =
            (c.events ++ [CallbackEvent.onDrain]).count CallbackEvent.onDrain +
              (if false then 1 else 0)
          rw [List.count_append, List.count_append]
          unfold bpCount drainCount at hcnt
          rw [hpc] at hcnt
          simp only [if_true] at hcnt
          simp [List.count_cons, hcnt]
      · rw [heq]
        refine ⟨hopen, ?_, ?_, ?_⟩
        · intro hfp
          have hfpc : c.writePaused = false := hfp
          have := hhi hfpc
          show (c.tx.advance n).count ≤ kTxHighWatermark
          omega
        · intro htp
          have htpc : c.writePaused = true := htp
          rcases hside with hfp | hbound
          · have hfp2 : c.writePaused = false := hfp
            rw [htpc] at hfp2
            exact absurd hfp2 (by simp)
          · exact hbound
        · show bpCount c = drainCount c + (if c.writePaused then 1 else 0)
          exact hcnt

theorem watermarkInv_step (c : Conn) (s : OpenIOStep)
    (hI : WatermarkInv c) : WatermarkInv (openStep c s) := by
  cases s with
  | send p b => exact watermarkInv_send c p b hI
  | sockWrite n => exact watermarkInv_write c n hI

theorem watermarkInv_run (steps : List OpenIOStep) :
    ∀ c : Conn, WatermarkInv c → WatermarkInv (runOpenSteps c steps) := by
  induction steps with
  | nil => intro c h; exact h
  | cons s rest ih =>
      intro c h
      exact ih _ (watermarkInv_step c s h)

/-- A backpressure callback fires on a send exactly when the connection
was unpaused and the post-write TX fill strictly exceeds the high
watermark. -/
theorem send_bp_fires_iff (c : Conn) (p : List Nat) (b : Bool)
    (hI : WatermarkInv c) :
    bpCount (sendImpl c p b) = bpCount c + 1 ↔
      c.writePaused = false ∧
        kTxHighWatermark < (writeFrame c p (if b then 2 else 1)).tx.count := by
  obtain ⟨hopen, hhi, hlo, hcnt⟩ := hI
  rw [sendImpl_eq_open c p b hopen]
  have hg := writeFrame_ghost c p (if b then 2 else 1)
  rcases checkHigh_cases (writeFrame c p (if b then 2 else 1)) with
    ⟨hp, hcross, heq⟩ | ⟨hside, heq⟩
  · rw [heq]
    constructor
    · intro _
      rw [hg.1] at hp
      exact ⟨hp, hcross⟩
    · intro _
      unfold bpCount
      show ((writeFrame c p (if b then 2 else 1)).events ++
          [CallbackEvent.onBackpressure]).count CallbackEvent.onBackpressure =
        c.events.count CallbackEvent.onBackpressure + 1
      rw [List.count_append, hg.2.1]
      simp [List.count_cons]
  · rw [heq]
    constructor
    · intro habs
      unfold bpCount at habs
      rw [hg.2.1] at habs
      omega
    · intro ⟨hfp, hcross⟩
      rcases hside with hp | hbound
      · rw [hg.1, hfp] at hp
        exact absurd hp (by simp)
      · omega

/-- When a backpressure callback fires, the pre-state fill was at or
below the high watermark (crossing from below) and the flag is now
set. -/
theorem send_bp_fires_facts (c : Conn) (p : List Nat) (b : Bool)
    (hI : WatermarkInv c)
    (hf : bpCount (sendImpl c p b) = bpCount c + 1) :
    c.tx.count ≤ kTxHighWatermark ∧ (sendImpl c p b).writePaused = true := by
  have hiff := (send_bp_fires_iff c p b hI).mp hf
  obtain ⟨hopen, hhi, hlo, hcnt⟩ := hI
  refine ⟨hhi hiff.1, ?_⟩
  rw [sendImpl_eq_open c p b hopen]
  have hg := writeFrame_ghost c p (if b then 2 else 1)
  rcases checkHigh_cases (writeFrame c p (if b then 2 else 1)) with
    ⟨_, _, heq⟩ | ⟨hside, heq⟩
  · rw [heq]
    rfl
  · rcases hside with hp | hbound
    · rw [hg.1, hiff.1] at hp
      exact absurd hp (by simp)
    · omega

/-- A send never fires `on_drain`, and a send on a paused connection
fires nothing at all (so `on_backpressure` cannot fire again while the
flag is set). -/
theorem send_no_drain (c : Conn) (p : List Nat) (b : Bool)
    (hopen : c.state = ConnectionState.kOpen) :
    drainCount (sendImpl c p b) = drainCount c ∧
    (c.writePaused = true → (sendImpl c p b).events = c.events ∧
      (sendImpl c p b).writePaused = true) := by
  rw [sendImpl_eq_open c p b hopen]
  have hg := writeFrame_ghost c p (if b then 2 else 1)
  rcases checkHigh_cases (writeFrame c p (if b then 2 else 1)) with
    ⟨hp, hcross, heq⟩ | ⟨hside, heq⟩
  · rw [heq]
    constructor
    · unfold drainCount
      show ((writeFrame c p (if b then 2 else 1)).events ++
          [CallbackEvent.onBackpressure]).count CallbackEvent.onDrain =
        c.events.count CallbackEvent.onDrain
      rw [List.count_append, hg.2.1]
      simp [List.count_cons]
    · intro htp
      rw [hg.1, htp] at hp
      exact absurd hp (by simp)
  · rw [heq]
    refine ⟨by unfold drainCount; rw [hg.2.1], ?_⟩
    intro htp
    refine ⟨hg.2.1, ?_⟩
    rw [hg.1]
    exact htp

/-- A drain callback fires on a socket write exactly when the connection
was paused, bytes were pending and written, and the post-write fill is
strictly below the low watermark. -/
theorem write_drain_fires_iff (c : Conn) (n : Nat) :
    drainCount (handleWriteVectoredDelivered c n) = drainCount c + 1 ↔
      c.writePaused = true ∧ c.tx.count ≠ 0 ∧ n ≠ 0 ∧
        (c.tx.advance n).count < kTxLowWatermark := by
  by_cases h0 : c.tx.count = 0
  · unfold handleWriteVectoredDelivered
    rw [if_pos h0]
    constructor
    · intro habs
      unfold drainCount at habs
      simp at habs
    · intro ⟨_, hne, _, _⟩
      exact absurd h0 hne
  · by_cases hn : n = 0
    · unfold handleWriteVectoredDelivered
      rw [if_neg h0, if_pos hn]
      constructor
      · intro habs
        unfold drainCount at habs
        simp at habs
      · intro ⟨_, _, hne, _⟩
        exact absurd hn hne
    · rw [handleWrite_eq c n h0 hn]
      rcases checkLow_cases (advTx c n) with ⟨hp, hlow, heq⟩ | ⟨hside, heq⟩
      · rw [heq]
        constructor
        · intro _
          exact ⟨hp, h0, hn, hlow⟩
        · intro _
          unfold drainCount
          show (c.events ++ [CallbackEvent.onDrain]).count CallbackEvent.onDrain =
            c.events.count CallbackEvent.onDrain + 1
          rw [List.count_append]
          simp [List.count_cons]
      · rw [heq]
        constructor
        · intro habs
          unfold drainCount at habs
          simp [advTx] at habs
        · intro ⟨hpc, _, _, hlowc⟩
          rcases hside with hfp | hbound
          · have hfp2 : c.writePaused = false := hfp
            rw [hpc] at hfp2
            exact absurd hfp2 (by simp)
          · have hbound2 : kTxLowWatermark ≤ (c.tx.advance n).count := hbound
            omega

/-- When a drain fires, the pre-state fill was at or above the low
watermark (crossing from above, given the invariant) and the flag is now
cleared; and a socket write never fires `on_backpressure`. -/
theorem write_drain_facts (c : Conn) (n : Nat) (hI : WatermarkInv c) :
    (drainCount (handleWriteVectoredDelivered c n) = drainCount c + 1 →
      kTxLowWatermark ≤ c.tx.count ∧
      (handleWriteVectoredDelivered c n).writePaused = false) ∧
    bpCount (handleWriteVectoredDelivered c n) = bpCount c ∧
    (c.writePaused = false →
      (handleWriteVectoredDelivered c n).events = c.events ∧
      (handleWriteVectoredDelivered c n).writePaused = false) := by
  obtain ⟨hopen, hhi, hlo, hcnt⟩ := hI
  by_cases h0 : c.tx.count = 0
  · unfold handleWriteVectoredDelivered
    rw [if_pos h0]
    exact ⟨fun habs => absurd habs (by unfold drainCount; simp),
      rfl, fun hfp => ⟨rfl, hfp⟩⟩
  · by_cases hn : n = 0
    · unfold handleWriteVectoredDelivered
      rw [if_neg h0, if_pos hn]
      exact ⟨fun habs => absurd habs (by unfold drainCount; simp),
        rfl, fun hfp => ⟨rfl, hfp⟩⟩
    · rw [handleWrite_eq c n h0 hn]
      rcases checkLow_cases (advTx c n) with ⟨hp, hlow, heq⟩ | ⟨hside, heq⟩
      · rw [heq]
        have hpc : c.writePaused = true := hp
        refine ⟨?_, ?_, ?_⟩
        · intro _
          exact ⟨hlo hpc, rfl⟩
        · unfold bpCount
          show (c.events ++ [CallbackEvent.onDrain]).count CallbackEvent.onBackpressure =
            c.events.count CallbackEvent.onBackpressure
          rw [List.count_append]
          simp [List.count_cons]
        · intro hfp
          rw [hfp] at hpc
          exact absurd hpc (by simp)
      · rw [heq]
        refine ⟨?_, rfl, ?_⟩
        · intro habs
          unfold drainCount at habs
          simp [advTx] at habs
        · intro hfp
          exact ⟨rfl, hfp⟩

end Conn

/-! Server statistics and admission control

`ServerStats` (`ewss.hpp` lines 760-790) and the admission-control slice
of `Server` (lines 1065-1117, 1561-1683).  The atomic counters are
single-writer here (reactor thread), so they are modelled as plain `Nat`
fields. -/

structure ServerStatsM where
  totalMessagesIn : Nat
  totalMessagesOut : Nat
  totalBytesIn : Nat
  totalBytesOut : Nat
  totalConnections : Nat
  activeConnections : Nat
  rejectedConnections : Nat
  handshakeErrors : Nat
  socketErrors : Nat
  bufferOverflows : Nat
  lastPollLatencyUs : Nat
  maxPollLatencyUs : Nat
  poolAcquires : Nat
  poolReleases : Nat
  poolExhausted : Nat
  deriving DecidableEq

/-- The all-zero counter record (also the state of a freshly constructed
`ServerStats`). -/
def zeroStats : ServerStatsM :=
  { totalMessagesIn := 0, totalMessagesOut := 0, totalBytesIn := 0,
    totalBytesOut := 0, totalConnections := 0, activeConnections := 0,
    rejectedConnections := 0, handshakeErrors := 0, socketErrors := 0,
    bufferOverflows := 0, lastPollLatencyUs := 0, maxPollLatencyUs := 0,
    poolAcquires := 0, poolReleases := 0, poolExhausted := 0 }

/-- `ServerStats::reset` (lines 777-784): every counter is assigned 0,
regardless of the previous contents. -/
def statsReset (_s : ServerStatsM) : ServerStatsM := zeroStats

/-- `Server::kMaxConnections`: capacity of the `FixedVector` of
connections. -/
def kMaxConnections : Nat := 64

/-- Admission-control state of `Server`: the number of stored connections
(`connections_.size()`), the admission limit `max_connections_`, and the
statistics record. -/
structure ServerM where
  connCount : Nat
  maxConnections : Nat
  stats : ServerStatsM
  deriving DecidableEq

/-- A freshly constructed `Server` before any configuration call:
`max_connections_` has its member initialiser 50, the container is empty
and the counters are zero. -/
def serverDefault : ServerM :=
  { connCount := 0, maxConnections := 50, stats := zeroStats }

/-- `Server::accept_connection` (lines 1620-1655), on the path where the
`accept(2)` system call would succeed: when the stored count has reached
`max_connections_` (or the container capacity), count one rejection and
return `kMaxConnectionsExceeded` without storing anything; otherwise
store the new connection and bump the totals. -/
def acceptConnection (s : ServerM) : ErrorCode × ServerM :=
  if s.maxConnections ≤ s.connCount ∨ kMaxConnections ≤ s.connCount then
    (ErrorCode.kMaxConnectionsExceeded,
      { s with stats :=
          { s.stats with rejectedConnections := s.stats.rejectedConnections + 1 } })
  else
    (ErrorCode.kOk,
      { s with connCount := s.connCount + 1,
               stats := { s.stats with
                 totalConnections := s.stats.totalConnections + 1,
                 activeConnections := s.stats.activeConnections + 1 } })

/-- `Server::remove_closed_connections` (lines 1668-1683), with `k` the
number of connections observed closed in this sweep. -/
def removeClosed (s : ServerM) (k : Nat) : ServerM :=
  { s with connCount := s.connCount - k,
           stats := { s.stats with
             activeConnections := s.stats.activeConnections - k } }

/-- Reactor events that change the stored-connection count. -/
inductive ServerStep where
  | accept
  | sweep (k : Nat)

def serverStep (s : ServerM) : ServerStep → ServerM
  | ServerStep.accept => (acceptConnection s).2
  | ServerStep.sweep k => removeClosed s k

def runServerSteps (s : ServerM) : List ServerStep → ServerM
  | [] => s
  | st :: rest => runServerSteps (serverStep s st) rest

/-- The prelude of `Server::run` (lines 1561-1563): `is_running_ = true;
stats_.reset();` executed before the poll loop is entered. -/
def runInit (s : ServerM) : ServerM := { s with stats := statsReset s.stats }

/-- The `POLLIN` branch of `Server::handle_connection_io` as it acts on
the pair (connection, statistics): the statistics record is not touched
anywhere on the read path (`handle_connection_io`, `handle_read`, the
`on_data` handlers and `close` never reference `stats_`). -/
def reactorReadStep (cs : Conn × ServerStatsM) : Conn × ServerStatsM :=
  (Conn.reactorHandleReadable cs.1, cs.2)

/-- A user `send` call as it acts on the pair (connection, statistics):
`send_impl`/`write_frame` never reference `stats_` either. -/
def sendStep (cs : Conn × ServerStatsM) (payload : List Nat) (binary : Bool) :
    Conn × ServerStatsM :=
  (Conn.sendImpl cs.1 payload binary, cs.2)

/-! Concrete connection states used by the claims -/

/-- A freshly accepted connection: Handshaking, open socket, empty rings,
no callback fired yet. -/
def freshConn : Conn :=
  { state := ConnectionState.kHandshaking, rx := RingBuffer.init kRxBufferSize,
    tx := RingBuffer.init kTxBufferSize, socketOpen := true,
    lastError := ErrorCode.kOk, writePaused := false, events := [] }

/-- An Open connection with empty rings (event trace truncated to the
open phase). -/
def openConnQuiet : Conn := { freshConn with state := ConnectionState.kOpen }

/-- An Open connection whose RX ring holds an unmasked empty peer close
frame `88 00`. -/
def openConnPeerClose : Conn :=
  { freshConn with
      state := ConnectionState.kOpen,
      rx := ((RingBuffer.init kRxBufferSize).push [136, 0]).2 }

/-- A Closing connection whose RX ring holds the peer's close frame. -/
def closingConnPeerClose : Conn :=
  { freshConn with
      state := ConnectionState.kClosing,
      rx := ((RingBuffer.init kRxBufferSize).push [136, 0]).2 }

/-- A Handshaking connection whose RX ring holds a complete request whose
request line does not start with `GET `. -/
def handshakingBadConn : Conn :=
  { freshConn with
      rx := ((RingBuffer.init kRxBufferSize).push
        (strBytes "PUT / HTTP/1.1\r\n\r\n")).2 }

/-- A Handshaking connection whose RX ring holds a complete `GET` request
with no `Sec-WebSocket-Key` header. -/
def handshakingNoKeyConn : Conn :=
  { freshConn with
      rx := ((RingBuffer.init kRxBufferSize).push
        (strBytes "GET / HTTP/1.1\r\nHost: x\r\n\r\n")).2 }

/-- An Open connection whose TX ring holds 8191 bytes (one byte free),
write-paused as any reachable state with this fill is. -/
def openConnTxAlmostFull : Conn :=
  { freshConn with
      state := ConnectionState.kOpen,
      writePaused := true,
      tx := { cap := kTxBufferSize, buf := fun _ => 0, readIdx := 0,
              writeIdx := 8191, count := 8191 } }

/-- An Open connection whose TX ring holds 8180 bytes (12 free),
write-paused as any reachable state with this fill is. -/
def openConnTxNearFull : Conn :=
  { freshConn with
      state := ConnectionState.kOpen,
      writePaused := true,
      tx := { cap := kTxBufferSize, buf := fun _ => 0, readIdx := 0,
              writeIdx := 8180, count := 8180 } }

/-- A 14-byte text payload; its encoded frame (2-byte header + 14 bytes)
needs 16 bytes and does not fit into 12 free bytes. -/
def pay14 : List Nat := strBytes "abcdefghijklmn" 

/-- A server whose connection container already stores
`max_connections_` = 50 connections. -/
def fullServer : ServerM :=
  { connCount := 50, maxConnections := 50, stats := zeroStats }

/-! Claim theorems -/

/-- C1.  The transition to Closed does NOT fire `on_close` exactly once
when the peer's close frame is observed while Open: `parse_frames` first
invokes `on_close(clean=false)` itself and then calls
`transition_to_state(kClosed)`, which unconditionally invokes
`on_close(clean=true)` again — two invocations with contradicting `clean`
flags for one connection.  The application-initiated paths (forced close
out of Closing, and the peer's close frame completing a local close
handshake in Closing) do fire `on_close(clean=true)` exactly once. -/
theorem c1_peer_close_fires_on_close_twice :
    (Conn.parseFrames openConnPeerClose).events =
      [CallbackEvent.onClose false, CallbackEvent.onClose true] ∧
    (Conn.parseFrames openConnPeerClose).state = ConnectionState.kClosed ∧
    (Conn.parseFrames openConnPeerClose).socketOpen = false ∧
    (Conn.close (Conn.close openConnQuiet 1000) 1000).events =
      [CallbackEvent.onClose true] ∧
    (Conn.closingOnData closingConnPeerClose).2.events =
      [CallbackEvent.onClose true] ∧
    (Conn.closingOnData closingConnPeerClose).2.state = ConnectionState.kClosed := by
  refine ⟨by decide, by decide, by decide, by decide, by decide, by decide⟩

/-- C2.  A handshake that fails on a complete request does NOT close the
connection and does NOT increment the handshake-error counter:
`parse_handshake` returns `kHandshakeFailed`, but `handle_read` discards
the result of `ops_->on_data(*this)` and returns success, so the reactor
does not close the connection — it stays in Handshaking with the socket
open — and no code path in the repository ever increments
`handshake_errors`. -/
theorem c2_handshake_failure_stays_handshaking :
    (Conn.parseHandshake handshakingBadConn).1 =
      Except.error ErrorCode.kHandshakeFailed ∧
    (Conn.handleReadDelivered handshakingBadConn).1 = Except.ok () ∧
    (Conn.reactorHandleReadable handshakingBadConn).state =
      ConnectionState.kHandshaking ∧
    (Conn.reactorHandleReadable handshakingBadConn).socketOpen = true ∧
    (Conn.reactorHandleReadable handshakingBadConn).events = [] ∧
    (Conn.parseHandshake handshakingNoKeyConn).1 =
      Except.error ErrorCode.kHandshakeFailed ∧
    (Conn.reactorHandleReadable handshakingNoKeyConn).state =
      ConnectionState.kHandshaking ∧
    (∀ st : ServerStatsM,
      (reactorReadStep (handshakingBadConn, st)).2 = st) := by
  refine ⟨rfl, rfl, by decide, by decide, by decide, rfl, by decide,
    fun st => rfl⟩

set_option maxRecDepth 100000 in
/-- C3.  The accept-key computation of `ewss.hpp`
(Base64 ∘ SHA1-of-key++GUID) maps the RFC 6455 example key to exactly
`s3pPLMBiTxaQ9kYGzzhZRbK+xOo=` — but the second SHA-1 implementation,
`utils.hpp`'s (used by the modular build and required by its own test
`test_utils.cpp` "SHA1 hash" to produce the same value), yields a
different string under either defensible semantics of its
undefined-behaviour shift. -/
theorem c3_accept_key_rfc6455 :
    generateAcceptKey (strBytes "dGhlIHNhbXBsZSBub25jZQ==") =
      "s3pPLMBiTxaQ9kYGzzhZRbK+xOo=".toList ∧
    generateAcceptKeyUtils shiftAsWritten (strBytes "dGhlIHNhbXBsZSBub25jZQ==") =
      "jemjzTGak9m4HPF9hug1rzeZMgI=".toList ∧
    generateAcceptKeyUtils shiftMod32 (strBytes "dGhlIHNhbXBsZSBub25jZQ==") =
      "i5VPuJjG6DJEB6EHNKfNNSSiWww=".toList ∧
    generateAcceptKeyUtils shiftAsWritten (strBytes "dGhlIHNhbXBsZSBub25jZQ==") ≠
      "s3pPLMBiTxaQ9kYGzzhZRbK+xOo=".toList ∧
    generateAcceptKeyUtils shiftMod32 (strBytes "dGhlIHNhbXBsZSBub25jZQ==") ≠
      "s3pPLMBiTxaQ9kYGzzhZRbK+xOo=".toList := by
  refine ⟨by decide, by decide, by decide, by decide, by decide⟩

/-- C4.  The `ewss.hpp` `parse_frame_header` follows the spec's length
rules on every byte slice, but the `utils.hpp` implementation does not:
on the 4-byte unmasked frame `81 7E 00 80` (16-bit payload length 128)
it sign-extends the length byte `0x80` and reports payload length
`2^64 - 128`. -/
theorem c4_parse_frame_header_rules :
    (∀ (data : List Nat), (∀ b ∈ data, b < 256) →
      (parseFrameHeaderSpec data = none → (parseFrameHeaderHdr data).1 = 0) ∧
      (∀ hl pl, parseFrameHeaderSpec data = some (hl, pl) →
        (parseFrameHeaderHdr data).1 = hl ∧
          (parseFrameHeaderHdr data).2.payloadLen = pl)) ∧
    parseFrameHeaderSpec [129, 126, 0, 128] = some (4, 128) ∧
    parseFrameHeaderUtils [129, 126, 0, 128] =
      (4, ⟨true, 1, false, 18446744073709551488⟩) ∧
    (18446744073709551488 : Nat) ≠ 128 :=
  ⟨parseHdr_matches_spec, by decide, by decide, by decide⟩

/-- Witness for C4 at the unmasked 16-bit frame `81 7E 01 90`
(payload length 400). -/
theorem c4_parse_frame_header_rules_witness :
    (∀ b ∈ ([129, 126, 1, 144] : List Nat), b < 256) ∧
    parseFrameHeaderSpec [129, 126, 1, 144] = some (4, 400) ∧
    (parseFrameHeaderHdr [129, 126, 1, 144]).1 = 4 ∧
    (parseFrameHeaderHdr [129, 126, 1, 144]).2.payloadLen = 400 :=
  ⟨by decide, by decide,
   ((c4_parse_frame_header_rules.1 [129, 126, 1, 144] (by decide)).2 4 400
     (by decide)).1,
   ((c4_parse_frame_header_rules.1 [129, 126, 1, 144] (by decide)).2 4 400
     (by decide)).2⟩

/-- C5.  A `send` whose encoded frame does not fit in the TX ring does
NOT leave the ring unchanged and does NOT count a buffer overflow: with
8180 of 8192 TX bytes in use, sending a 14-byte payload pushes the 2-byte
frame header `81 0E` (which fits into the 12 free bytes) and then drops
only the payload, leaving a header announcing 14 bytes that never follow;
no code path in the repository increments `buffer_overflows`.  The
connection is indeed not closed.  When even the header does not fit (one
free byte), the ring is left unchanged — also without counting. -/
theorem c5_send_overflow_partial_header :
    (Conn.sendImpl openConnTxNearFull pay14 false).tx.count = 8182 ∧
    (Conn.sendImpl openConnTxNearFull pay14 false).tx.buf 8180 = 129 ∧
    (Conn.sendImpl openConnTxNearFull pay14 false).tx.buf 8181 = 14 ∧
    (Conn.sendImpl openConnTxNearFull pay14 false).state =
      ConnectionState.kOpen ∧
    (Conn.sendImpl openConnTxNearFull pay14 false).socketOpen = true ∧
    (Conn.sendImpl openConnTxNearFull pay14 false).events = [] ∧
    (∀ st : ServerStatsM,
      (sendStep (openConnTxNearFull, st) pay14 false).2 = st) ∧
    Conn.sendImpl openConnTxAlmostFull (strBytes "ab") false =
      openConnTxAlmostFull := by
  refine ⟨by decide, by decide, by decide, by decide, by decide, by decide,
    fun st => rfl, rfl⟩

/-- Counterexample for C8: `close` is not idempotent for an Open
connection.  One `close(1000)` moves it to Closing with the socket still
open; a second `close(1000)` moves it on to Closed and shuts the socket,
so state and socket status differ between close-once and close-twice. -/
theorem c8_close_not_idempotent_from_open :
    (Conn.close openConnQuiet 1000).state = ConnectionState.kClosing ∧
    (Conn.close (Conn.close openConnQuiet 1000) 1000).state =
      ConnectionState.kClosed ∧
    (Conn.close openConnQuiet 1000).socketOpen = true ∧
    (Conn.close (Conn.close openConnQuiet 1000) 1000).socketOpen = false := by
  refine ⟨by decide, by decide, by decide, by decide⟩

/-- C8 (amended).  `close(code)` is idempotent in Handshaking, Closing
and Closed — the second call returns without any change — while from Open
the first call queues the close frame and moves to Closing, and a second
call moves the connection to Closed and shuts the socket (the TX content
is unchanged by the second call). -/
theorem c8_close_idempotent_outside_open :
    (∀ (c : Conn) (code : Nat), c.state ≠ ConnectionState.kOpen →
      Conn.close (Conn.close c code) code = Conn.close c code) ∧
    (∀ (c : Conn) (code : Nat), c.state = ConnectionState.kOpen →
      (Conn.close c code).state = ConnectionState.kClosing ∧
      (Conn.close (Conn.close c code) code).state = ConnectionState.kClosed ∧
      (Conn.close (Conn.close c code) code).socketOpen = false ∧
      (Conn.close (Conn.close c code) code).tx = (Conn.close c code).tx) := by
  constructor
  · intro c code h
    cases hs : c.state with
    | kOpen => exact absurd hs h
    | kHandshaking =>
        simp [Conn.close, Conn.transitionToState, Conn.fireEvent, hs]
    | kClosing =>
        simp [Conn.close, Conn.transitionToState, Conn.fireEvent, hs]
    | kClosed =>
        simp [Conn.close, hs]
  · intro c code h
    refine ⟨?_, ?_, ?_, ?_⟩ <;>
      simp [Conn.close, Conn.transitionToState, Conn.writeCloseFrame, h,
        Conn.fireEvent]

/-- Witness for C8 (amended): both branches at concrete connections. -/
theorem c8_close_idempotent_outside_open_witness :
    (freshConn.state ≠ ConnectionState.kOpen ∧
      Conn.close (Conn.close freshConn 1000) 1000 = Conn.close freshConn 1000) ∧
    (openConnQuiet.state = ConnectionState.kOpen ∧
      (Conn.close openConnQuiet 1000).state = ConnectionState.kClosing) :=
  ⟨⟨by decide, c8_close_idempotent_outside_open.1 freshConn 1000 (by decide)⟩,
   ⟨by decide, (c8_close_idempotent_outside_open.2 openConnQuiet 1000 (by decide)).1⟩⟩

theorem acceptConnection_max (s : ServerM) :
    (acceptConnection s).2.maxConnections = s.maxConnections := by
  unfold acceptConnection
  by_cases h : s.maxConnections ≤ s.connCount ∨ kMaxConnections ≤ s.connCount <;>
    simp [h]

theorem acceptConnection_count (s : ServerM) :
    (acceptConnection s).2.connCount = s.connCount ∨
      ((acceptConnection s).2.connCount = s.connCount + 1 ∧
        s.connCount < s.maxConnections) := by
  unfold acceptConnection
  by_cases h : s.maxConnections ≤ s.connCount ∨ kMaxConnections ≤ s.connCount
  · left
    simp [h]
  · right
    constructor
    · simp [h]
    · push_neg at h
      omega

/-- Helper for C9: the connection count never exceeds 50 along any
sequence of accepts and sweeps on a default-configured server. -/
theorem serverConnCount_le (steps : List ServerStep) :
    ∀ s : ServerM, s.maxConnections = 50 → s.connCount ≤ 50 →
      (runServerSteps s steps).connCount ≤ 50 := by
  induction steps with
  | nil => intro s _ h; exact h
  | cons st rest ih =>
      intro s hmax hcnt
      cases st with
      | accept =>
          rw [runServerSteps]
          refine ih _ ?_ ?_
          · show (acceptConnection s).2.maxConnections = 50
            rw [acceptConnection_max, hmax]
          · show (acceptConnection s).2.connCount ≤ 50
            rcases acceptConnection_count s with h | ⟨h, hlt⟩
            · omega
            · rw [hmax] at hlt
              omega
      | sweep k =>
          rw [runServerSteps]
          refine ih _ ?_ ?_
          · show s.maxConnections = 50
            exact hmax
          · show s.connCount - k ≤ 50
            omega

/-- C9.  A default-configured server accepts at most `max_connections_`
= 50 concurrent connections — not the container capacity 64: whenever
the stored count has reached the limit, `accept_connection` stores
nothing, returns `kMaxConnectionsExceeded` and increments exactly the
rejected-connections counter; and no reachable state of a default server
ever stores more than 50 connections. -/
theorem c9_admission_limit :
    serverDefault.maxConnections = 50 ∧ kMaxConnections = 64 ∧
    serverDefault.maxConnections < kMaxConnections ∧
    (∀ s : ServerM, s.maxConnections ≤ s.connCount →
      (acceptConnection s).1 = ErrorCode.kMaxConnectionsExceeded ∧
      (acceptConnection s).2.connCount = s.connCount ∧
      (acceptConnection s).2.stats.rejectedConnections =
        s.stats.rejectedConnections + 1 ∧
      (acceptConnection s).2.stats.totalConnections =
        s.stats.totalConnections ∧
      (acceptConnection s).2.stats.activeConnections =
        s.stats.activeConnections) ∧
    (∀ steps : List ServerStep,
      (runServerSteps serverDefault steps).connCount ≤ 50) := by
  refine ⟨rfl, rfl, by decide, ?_, ?_⟩
  · intro s h
    have hcond : s.maxConnections ≤ s.connCount ∨
        kMaxConnections ≤ s.connCount := Or.inl h
    refine ⟨?_, ?_, ?_, ?_, ?_⟩ <;> simp [acceptConnection, hcond]
  · intro steps
    exact serverConnCount_le steps serverDefault rfl (by decide)

/-- Witness for C9 at a server already holding 50 connections. -/
theorem c9_admission_limit_witness :
    (fullServer.maxConnections ≤ fullServer.connCount) ∧
    (acceptConnection fullServer).1 = ErrorCode.kMaxConnectionsExceeded ∧
    (acceptConnection fullServer).2.connCount = 50 ∧
    (acceptConnection fullServer).2.stats.rejectedConnections = 1 :=
  ⟨by decide,
   (c9_admission_limit.2.2.2.1 fullServer (by decide)).1,
   (c9_admission_limit.2.2.2.1 fullServer (by decide)).2.1,
   by
     have := (c9_admission_limit.2.2.2.1 fullServer (by decide)).2.2.1
     simpa using this⟩

/-- C6.  The TX watermarks are 75% and 25% of the 8192-byte TX capacity
(6144 and 2048 bytes), and along every sequence of sends and socket
writes on an Open connection the backpressure protocol holds: a send
fires `on_backpressure` exactly when the fill strictly exceeds the high
watermark while unpaused — a crossing from below, since the invariant
gives fill ≤ 6144 whenever unpaused — and it sets the write-paused flag;
while the flag is set no send fires anything, so the callback cannot fire
again before `on_drain`; a socket write fires `on_drain` exactly when the
fill drops strictly below the low watermark while paused — a crossing
from above, since fill ≥ 2048 whenever paused — and it clears the flag;
and `on_backpressure` has fired exactly once more than `on_drain`
precisely while the flag is set (strict alternation, i.e. each fires
exactly once per cycle). -/
theorem c6_backpressure_watermarks :
    kTxBufferSize = 8192 ∧
    kTxHighWatermark = kTxBufferSize * 3 / 4 ∧ kTxHighWatermark = 6144 ∧
    kTxLowWatermark = kTxBufferSize / 4 ∧ kTxLowWatermark = 2048 ∧
    (∀ (steps : List Conn.OpenIOStep) (c : Conn), Conn.WatermarkInv c →
      Conn.WatermarkInv (Conn.runOpenSteps c steps)) ∧
    (∀ (c : Conn) (p : List Nat) (b : Bool), Conn.WatermarkInv c →
      (Conn.bpCount (Conn.sendImpl c p b) = Conn.bpCount c + 1 ↔
        c.writePaused = false ∧
          kTxHighWatermark < (Conn.writeFrame c p (if b then 2 else 1)).tx.count) ∧
      (Conn.bpCount (Conn.sendImpl c p b) = Conn.bpCount c + 1 →
        c.tx.count ≤ kTxHighWatermark ∧ (Conn.sendImpl c p b).writePaused = true) ∧
      Conn.drainCount (Conn.sendImpl c p b) = Conn.drainCount c ∧
      (c.writePaused = true → (Conn.sendImpl c p b).events = c.events ∧
        (Conn.sendImpl c p b).writePaused = true)) ∧
    (∀ (c : Conn) (n : Nat), Conn.WatermarkInv c →
      (Conn.drainCount (Conn.handleWriteVectoredDelivered c n) =
          Conn.drainCount c + 1 ↔
        c.writePaused = true ∧ c.tx.count ≠ 0 ∧ n ≠ 0 ∧
          (c.tx.advance n).count < kTxLowWatermark) ∧
      (Conn.drainCount (Conn.handleWriteVectoredDelivered c n) =
          Conn.drainCount c + 1 →
        kTxLowWatermark ≤ c.tx.count ∧
          (Conn.handleWriteVectoredDelivered c n).writePaused = false) ∧
      Conn.bpCount (Conn.handleWriteVectoredDelivered c n) = Conn.bpCount c ∧
      (c.writePaused = false →
        (Conn.handleWriteVectoredDelivered c n).events = c.events ∧
        (Conn.handleWriteVectoredDelivered c n).writePaused = false)) := by
  refine ⟨rfl, rfl, by decide, rfl, by decide, ?_, ?_, ?_⟩
  · intro steps c h
    exact Conn.watermarkInv_run steps c h
  · intro c p b hI
    exact ⟨Conn.send_bp_fires_iff c p b hI,
      fun hf => Conn.send_bp_fires_facts c p b hI hf,
      (Conn.send_no_drain c p b hI.1).1,
      (Conn.send_no_drain c p b hI.1).2⟩
  · intro c n hI
    exact ⟨Conn.write_drain_fires_iff c n,
      (Conn.write_drain_facts c n hI).1,
      (Conn.write_drain_facts c n hI).2.1,
      (Conn.write_drain_facts c n hI).2.2⟩

/-- Witness for C6: an Open connection with empty TX satisfies the
invariant, and it is preserved across a concrete send and socket
write. -/
theorem c6_backpressure_watermarks_witness :
    Conn.WatermarkInv openConnQuiet ∧
    Conn.WatermarkInv (Conn.runOpenSteps openConnQuiet
      [Conn.OpenIOStep.send (strBytes "hi") false,
        Conn.OpenIOStep.sockWrite 4]) ∧
    Conn.drainCount (Conn.sendImpl openConnQuiet (strBytes "hi") false) =
      Conn.drainCount openConnQuiet :=
  ⟨by decide,
   c6_backpressure_watermarks.2.2.2.2.2.1
     [Conn.OpenIOStep.send (strBytes "hi") false, Conn.OpenIOStep.sockWrite 4]
     openConnQuiet (by decide),
   (c6_backpressure_watermarks.2.2.2.2.2.2.1 openConnQuiet (strBytes "hi") false
     (by decide)).2.2.1⟩

/-- C7.  Starting from a fresh ring buffer, every sequence of `push`,
`advance`, `commit_write` and `clear` operations maintains
`size + available == capacity`, `size ≤ capacity`, and both indices in
`[0, capacity)`; and after any sequence of pushes and advances that
respects capacity, `peek(size)` returns exactly the unconsumed pushed
bytes in FIFO order (the abstract queue semantics `absRun`). -/
theorem c7_ringbuffer_invariants_fifo :
    (∀ (cap : Nat), 0 < cap → ∀ ops : List RingBuffer.BufOp,
      (RingBuffer.runOps (RingBuffer.init cap) ops).size +
          (RingBuffer.runOps (RingBuffer.init cap) ops).available =
        (RingBuffer.runOps (RingBuffer.init cap) ops).cap ∧
      (RingBuffer.runOps (RingBuffer.init cap) ops).size ≤
        (RingBuffer.runOps (RingBuffer.init cap) ops).cap ∧
      (RingBuffer.runOps (RingBuffer.init cap) ops).readIdx <
        (RingBuffer.runOps (RingBuffer.init cap) ops).cap ∧
      (RingBuffer.runOps (RingBuffer.init cap) ops).writeIdx <
        (RingBuffer.runOps (RingBuffer.init cap) ops).cap) ∧
    (∀ (cap : Nat), 0 < cap → ∀ ops : List RingBuffer.BufOp,
      RingBuffer.pushAdvanceFits (RingBuffer.init cap) ops = true →
      (RingBuffer.runOps (RingBuffer.init cap) ops).peek
          (RingBuffer.runOps (RingBuffer.init cap) ops).size =
        RingBuffer.absRun [] ops) := by
  constructor
  · intro cap hc ops
    have hcap : (RingBuffer.runOps (RingBuffer.init cap) ops).cap = cap :=
      RingBuffer.runOps_cap _ ops
    obtain ⟨h1, h2, h3, h4⟩ :=
      RingBuffer.wf_runOps (RingBuffer.init cap) ops
        (RingBuffer.wf_init cap hc) hc
    refine ⟨?_, h1, h2, h3⟩
    unfold RingBuffer.size RingBuffer.available
    omega
  · intro cap hc ops hfits
    rw [RingBuffer.peek_size_eq_contents]
    exact RingBuffer.contents_runOps ops (RingBuffer.init cap)
      (RingBuffer.wf_init cap hc) hc hfits

/-- Witness for C7 on a capacity-4 buffer whose content wraps around. -/
theorem c7_ringbuffer_invariants_fifo_witness :
    (0 : Nat) < 4 ∧
    RingBuffer.pushAdvanceFits (RingBuffer.init 4)
      [RingBuffer.BufOp.push [1, 2, 3], RingBuffer.BufOp.advance 1,
        RingBuffer.BufOp.push [4, 5]] = true ∧
    (RingBuffer.runOps (RingBuffer.init 4)
        [RingBuffer.BufOp.push [1, 2, 3], RingBuffer.BufOp.advance 1,
          RingBuffer.BufOp.push [4, 5]]).peek
        (RingBuffer.runOps (RingBuffer.init 4)
          [RingBuffer.BufOp.push [1, 2, 3], RingBuffer.BufOp.advance 1,
            RingBuffer.BufOp.push [4, 5]]).size = [2, 3, 4, 5] ∧
    (RingBuffer.runOps (RingBuffer.init 4)
        [RingBuffer.BufOp.push [1, 2, 3], RingBuffer.BufOp.advance 1,
          RingBuffer.BufOp.push [4, 5]]).size ≤
      (RingBuffer.runOps (RingBuffer.init 4)
        [RingBuffer.BufOp.push [1, 2, 3], RingBuffer.BufOp.advance 1,
          RingBuffer.BufOp.push [4, 5]]).cap :=
  ⟨by decide, by decide,
   ((c7_ringbuffer_invariants_fifo.2 4 (by decide)
      [RingBuffer.BufOp.push [1, 2, 3], RingBuffer.BufOp.advance 1,
        RingBuffer.BufOp.push [4, 5]] (by decide)).trans (by decide)),
   (c7_ringbuffer_invariants_fifo.1 4 (by decide)
      [RingBuffer.BufOp.push [1, 2, 3], RingBuffer.BufOp.advance 1,
        RingBuffer.BufOp.push [4, 5]]).2.1⟩

/-- C10.  `Server::run` resets every statistics counter to zero before
entering the poll loop: whatever was accumulated beforehand (including
`rejected_connections` and `total_connections`) is discarded, and every
subsequent snapshot is independent of the pre-`run` counter values. -/
theorem c10_run_resets_stats :
    (∀ srv : ServerM, (runInit srv).stats = zeroStats) ∧
    (∀ srv : ServerM, (runInit srv).stats.rejectedConnections = 0 ∧
      (runInit srv).stats.totalConnections = 0) ∧
    (∀ (srv : ServerM) (s1 s2 : ServerStatsM) (steps : List ServerStep),
      runServerSteps (runInit { srv with stats := s1 }) steps =
        runServerSteps (runInit { srv with stats := s2 }) steps) := by
  refine ⟨fun _ => rfl, fun _ => ⟨rfl, rfl⟩, ?_⟩
  intro srv s1 s2 steps
  rfl

end EWSS
